import Mathlib

/-!
Verification of the offline-first persistence and synchronization engine of the
field-inspection application.

The development shallowly embeds the core of the source:
* `src/lib/indexedDB.ts` — the Local Record Store over IndexedDB;
* `src/components/auth/AuthContext.tsx` (`syncOfflineData`) — the Reconciliation
  (Sync) Engine with its in-flight guard;
* `src/components/inspection/InspectionForm.tsx` (`onSubmit`/`saveToOfflineDB`)
  — the Submission Coordinator;
* `src/app/(app)/dashboard/page.tsx` and `src/app/(app)/inspections/page.tsx`
  — the Merged View Builder (both pages contain the identical merge block).

Modelling conventions:
* JavaScript string truthiness (`x` falsy for `undefined`/`''`) is made explicit
  through `isTruthy`/`jsOr`/`jsOrOpt`.
* The IndexedDB object store (keyed by `localId`) is a list of records; `put`
  is insert-or-replace by key.
* Asynchronous remote calls are injected behaviours (`SyncBehavior`,
  `SubmitBehavior`) returning `Except`; a rejection models a thrown error.
* Firestore `Timestamp` marshalling keeps the ISO-8601 string (the round trip
  `Timestamp.fromDate(new Date(iso))` / `toDate().toISOString()` is identity at
  this level of abstraction).
* Remote interactions are recorded in an event trace (`RemoteEvent`) so that
  ordering claims (blob uploads before the document write) are provable.
-/

/-- One photo entry as stored on the client (`InspectionPhoto`):
`url?: string`, `dataUri?: string`; `none` models an absent field. -/
structure Photo where
  name : String
  url : Option String
  dataUri : Option String
deriving DecidableEq, Repr

/-- A photo entry in canonical (server) form: `{ name, url }`. -/
structure RemotePhoto where
  name : String
  url : String
deriving DecidableEq, Repr

/-- `LocalInspectionData` from `src/lib/indexedDB.ts`: the device-resident
record, keyed by `localId`, with `needsSync : number` (0 synced / 1 pending). -/
structure LocalInspectionData where
  localId : String
  id : Option String
  inspectorId : String
  inspectorName : String
  truckIdNo : String
  truckRegNo : String
  timestamp : String
  photos : List Photo
  notes : Option String
  damageSummary : Option String
  needsSync : Nat
  isReleased : Option Bool
  releasedAt : Option String
  releasedByUserId : Option String
  releasedByUserName : Option String
deriving DecidableEq, Repr

/-- JavaScript truthiness of an optional string: `undefined` and `''` are falsy. -/
def isTruthy : Option String → Bool
  | some s => s ≠ ""
  | none => false

/-- JavaScript `a || b` for an optional string `a` and string `b`. -/
def jsOr (a : Option String) (b : String) : String :=
  match a with
  | some s => if s = "" then b else s
  | none => b

/-- JavaScript truthiness filter: `a` if truthy, else nothing. -/
def jsOrOpt (a : Option String) : Option String :=
  match a with
  | some s => if s = "" then none else some s
  | none => none

/-- `url?.startsWith('https://firebasestorage.googleapis.com')`. -/
def isFirebaseUrl : Option String → Bool
  | some s => s.startsWith "https://firebasestorage.googleapis.com"
  | none => false

/-! ### The Local Record Store (`src/lib/indexedDB.ts`)

The object store `inspections` (keyPath `localId`) is modelled as a list of
records; `db.put` replaces the record carrying the same key, else appends. -/

/-- The contents of the IndexedDB `inspections` object store. -/
abbrev LocalDB := List LocalInspectionData

/-- IndexedDB `put` on a store with `keyPath: 'localId'`: insert-or-replace. -/
def dbPut (db : LocalDB) (z : LocalInspectionData) : LocalDB :=
  if db.any (fun w => w.localId == z.localId) then
    db.map (fun w => if w.localId == z.localId then z else w)
  else
    db ++ [z]

/-- IndexedDB `get` by primary key. -/
def dbGet (db : LocalDB) (localId : String) : Option LocalInspectionData :=
  db.find? (fun w => w.localId == localId)

/-- The execution context: whether a browser `window` (and IndexedDB) exists. -/
structure Ctx where
  isBrowser : Bool

/-- Failure of the Local Record Store, distinct from any "not found" result. -/
inductive StoreError where
  | indexedDBUnavailable
deriving DecidableEq, Repr

/-- `getDb`: rejects outside a browser context
("IndexedDB is not available on the server."), else yields the database handle.
The handle itself carries no data here; contents are threaded explicitly. -/
def getDb (ctx : Ctx) : Except StoreError Unit :=
  if ctx.isBrowser then .ok () else .error .indexedDBUnavailable

/-- `saveInspectionOffline`: chooses `inspectionData.localId || fresh`, forces
`needsSync := 1` and `timestamp || now`, and `put`s the record. Returns the
chosen `localId`. `r` carries the remaining submitted fields. -/
def saveInspectionOffline (ctx : Ctx) (db : LocalDB) (providedLocalId : Option String)
    (fresh now : String) (r : LocalInspectionData) : Except StoreError (LocalDB × String) :=
  (getDb ctx).map fun _ =>
    let localId := jsOr providedLocalId fresh
    let dataToSave : LocalInspectionData :=
      { r with localId := localId, needsSync := 1,
               timestamp := if r.timestamp = "" then now else r.timestamp }
    (dbPut db dataToSave, localId)

/-- The `updates` argument of `updateInspectionOffline`
(`Partial<Omit<LocalInspectionData, 'localId'>>`): `none` means the key is
absent from the object, `some v` that it is present with value `v`. -/
structure InspectionUpdates where
  id : Option (Option String) := none
  inspectorId : Option String := none
  inspectorName : Option String := none
  truckIdNo : Option String := none
  truckRegNo : Option String := none
  timestamp : Option String := none
  photos : Option (List Photo) := none
  notes : Option (Option String) := none
  damageSummary : Option (Option String) := none
  needsSync : Option Nat := none
  isReleased : Option (Option Bool) := none
  releasedAt : Option (Option String) := none
  releasedByUserId : Option (Option String) := none
  releasedByUserName : Option (Option String) := none
deriving DecidableEq, Repr

/-- The record produced by `{ ...inspection, ...updates, needsSync: 'needsSync'
in updates ? updates.needsSync : 1 }`. -/
def applyUpdates (r : LocalInspectionData) (u : InspectionUpdates) : LocalInspectionData :=
  { localId := r.localId
    id := u.id.getD r.id
    inspectorId := u.inspectorId.getD r.inspectorId
    inspectorName := u.inspectorName.getD r.inspectorName
    truckIdNo := u.truckIdNo.getD r.truckIdNo
    truckRegNo := u.truckRegNo.getD r.truckRegNo
    timestamp := u.timestamp.getD r.timestamp
    photos := u.photos.getD r.photos
    notes := u.notes.getD r.notes
    damageSummary := u.damageSummary.getD r.damageSummary
    needsSync := match u.needsSync with | some v => v | none => 1
    isReleased := u.isReleased.getD r.isReleased
    releasedAt := u.releasedAt.getD r.releasedAt
    releasedByUserId := u.releasedByUserId.getD r.releasedByUserId
    releasedByUserName := u.releasedByUserName.getD r.releasedByUserName }

/-- `updateInspectionOffline`: merge-patch an existing record; when the
`localId` is absent it only logs a warning (the store is unchanged). -/
def updateInspectionOffline (ctx : Ctx) (db : LocalDB) (localId : String)
    (u : InspectionUpdates) : Except StoreError LocalDB :=
  (getDb ctx).map fun _ =>
    match dbGet db localId with
    | some inspection => dbPut db (applyUpdates inspection u)
    | none => db

/-- `getOfflineInspections`: all records from the `timestamp` index (ascending
index order), reversed to newest-first. -/
def getOfflineInspections (ctx : Ctx) (db : LocalDB) : Except StoreError (List LocalInspectionData) :=
  (getDb ctx).map fun _ =>
    (db.mergeSort (fun a b => a.timestamp ≤ b.timestamp)).reverse

/-- `getInspectionByIdOffline`: `get` by key; a missing record is `ok none`,
not an error. -/
def getInspectionByIdOffline (ctx : Ctx) (db : LocalDB) (localId : String) :
    Except StoreError (Option LocalInspectionData) :=
  (getDb ctx).map fun _ => dbGet db localId

/-- Pure body of `getInspectionsToSync`: the `needsSync` index queried with
`IDBKeyRange.only(1)`. -/
def getInspectionsToSyncPure (db : LocalDB) : List LocalInspectionData :=
  db.filter (fun r => r.needsSync == 1)

/-- `getInspectionsToSync`: all records whose `needsSync` is `1`. -/
def getInspectionsToSync (ctx : Ctx) (db : LocalDB) : Except StoreError (List LocalInspectionData) :=
  (getDb ctx).map fun _ => getInspectionsToSyncPure db

/-- Pure body of `markInspectionSynced`: set `needsSync := 0` and attach the
Firestore id; photos are deliberately not touched here. -/
def markSyncedPure (db : LocalDB) (localId firestoreId : String) : LocalDB :=
  match dbGet db localId with
  | some inspection => dbPut db { inspection with needsSync := 0, id := some firestoreId }
  | none => db

/-- `markInspectionSynced`. -/
def markInspectionSynced (ctx : Ctx) (db : LocalDB) (localId firestoreId : String) :
    Except StoreError LocalDB :=
  (getDb ctx).map fun _ => markSyncedPure db localId firestoreId

/-- Pure body of `updateSyncedInspectionPhotos`: rewrite `photos` to
`{ name, url, dataUri: undefined }` entries. -/
def updatePhotosPure (db : LocalDB) (localId : String) (photosWithUrls : List RemotePhoto) : LocalDB :=
  match dbGet db localId with
  | some inspection =>
      dbPut db { inspection with
        photos := photosWithUrls.map (fun p => { name := p.name, url := some p.url, dataUri := none }) }
  | none => db

/-- `updateSyncedInspectionPhotos`. -/
def updateSyncedInspectionPhotos (ctx : Ctx) (db : LocalDB) (localId : String)
    (photosWithUrls : List RemotePhoto) : Except StoreError LocalDB :=
  (getDb ctx).map fun _ => updatePhotosPure db localId photosWithUrls

/-- `deleteInspectionOffline`. -/
def deleteInspectionOffline (ctx : Ctx) (db : LocalDB) (localId : String) :
    Except StoreError LocalDB :=
  (getDb ctx).map fun _ =>
    db.filter (fun w => !(w.localId == localId))

/-! ### The Reconciliation (Sync) Engine (`src/components/auth/AuthContext.tsx`)

`syncOfflineData` drains `getInspectionsToSync()` into Firestore: per record it
first uploads every photo still carrying an embedded payload, then writes the
document (`setDoc` merge when a Firestore id exists, else `addDoc`), and on
success marks the record synced and rewrites its photos to URL-only form.
Remote calls are modelled by an injected `SyncBehavior`; every remote
interaction is appended to an event trace. -/

/-- The outbound Firestore document built by the engine (`firestoreData`):
all record fields except `localId`/`needsSync`/`photos`, with `localId`
re-attached and `photos` in `{name, url}` form. -/
structure FirestoreDoc where
  localId : String
  inspectorId : String
  inspectorName : String
  truckIdNo : String
  truckRegNo : String
  timestamp : String
  photos : List RemotePhoto
  notes : Option String
  damageSummary : Option String
  isReleased : Option Bool
  releasedAt : Option String
  releasedByUserId : Option String
  releasedByUserName : Option String
deriving DecidableEq, Repr

/-- One remote interaction observed by the gateway. -/
inductive RemoteEvent where
  | uploadBlob (path : String)
  | docSet (docId : String) (doc : FirestoreDoc)
  | docCreate (doc : FirestoreDoc)
deriving DecidableEq, Repr

/-- Injected outcomes of the remote gateway calls made by the sync engine. -/
structure SyncBehavior where
  /-- `uploadBytes` + `getDownloadURL` for `inspections/<storagePathId>/<photoName>`:
  the download URL, or a thrown error. -/
  uploadResult : String → String → Except String String
  /-- `setDoc(doc(firestore, "inspections", docId), …, { merge: true })`. -/
  setDocResult : String → Except String Unit
  /-- `addDoc(collection(firestore, "inspections"), …)` for the record with the
  given `localId`: the fresh document id, or a thrown error. -/
  addDocResult : String → Except String String

/-- `clientPhoto.dataUri && !clientPhoto.url?.startsWith('https://firebasestorage.googleapis.com')`. -/
def needsUpload (p : Photo) : Bool :=
  isTruthy p.dataUri && !isFirebaseUrl p.url

/-- `clientPhoto.name || photo_${Date.now()}`; the `Date.now()` fallback for an
empty name is abstracted to a fixed token. -/
def photoNameOf (p : Photo) : String :=
  if p.name = "" then "photo_now" else p.name

/-- The storage path `inspections/<storagePathId>/<photoName>`. -/
def storagePath (storagePathId photoName : String) : String :=
  "inspections/" ++ storagePathId ++ "/" ++ photoName

/-- The per-record photo loop of `syncOfflineData`: photos with an embedded
payload and no remote URL are uploaded (recording an upload event); photos with
a truthy `url` are passed through; photos with neither are dropped. A throw
aborts the record. Returns the accumulated `uploadedPhotoMetadatas` and the
upload events issued (also in the failure case). -/
def uploadPhotos (b : SyncBehavior) (storagePathId : String) :
    List Photo → Except String (List RemotePhoto) × List RemoteEvent
  | [] => (.ok [], [])
  | p :: rest =>
    if needsUpload p then
      let nm := photoNameOf p
      match b.uploadResult storagePathId nm with
      | .error e => (.error e, [.uploadBlob (storagePath storagePathId nm)])
      | .ok url =>
        let (res, evs) := uploadPhotos b storagePathId rest
        (res.map (fun metas => ⟨nm, url⟩ :: metas), .uploadBlob (storagePath storagePathId nm) :: evs)
    else if isTruthy p.url then
      let (res, evs) := uploadPhotos b storagePathId rest
      (res.map (fun metas => ⟨p.name, p.url.getD ""⟩ :: metas), evs)
    else
      uploadPhotos b storagePathId rest

/-- `firestoreData` for one record, given the computed photos field. -/
def buildDoc (r : LocalInspectionData) (docPhotos : List RemotePhoto) : FirestoreDoc :=
  { localId := r.localId
    inspectorId := r.inspectorId
    inspectorName := r.inspectorName
    truckIdNo := r.truckIdNo
    truckRegNo := r.truckRegNo
    timestamp := if r.timestamp = "" then "Timestamp.now" else r.timestamp
    photos := docPhotos
    notes := r.notes
    damageSummary := r.damageSummary
    isReleased := r.isReleased
    releasedAt := jsOrOpt r.releasedAt
    releasedByUserId := r.releasedByUserId
    releasedByUserName := r.releasedByUserName }

/-- The photos field of the outbound document:
`uploadedPhotoMetadatas.length > 0 ? uploadedPhotoMetadatas :
localInspection.photos.map(p => ({name: p.name, url: p.url || ''}))`. -/
def docPhotosOf (r : LocalInspectionData) (metas : List RemotePhoto) : List RemotePhoto :=
  if metas.isEmpty then r.photos.map (fun p => ⟨p.name, p.url.getD ""⟩) else metas

/-- The remote half of one record's sync attempt: photo uploads followed by the
document write. Returns `some (firestoreId, docPhotos)` on success (the id the
record was written under and the photos field written), `none` when the record
threw, together with the trace of remote interactions. The local store is not
read or written here. -/
def attemptRecord (b : SyncBehavior) (r : LocalInspectionData) :
    Option (String × List RemotePhoto) × List RemoteEvent :=
  match uploadPhotos b (jsOr r.id r.localId) r.photos with
  | (.error _, evs) => (none, evs)
  | (.ok metas, evs) =>
    match jsOrOpt r.id with
    | some firestoreId =>
      match b.setDocResult firestoreId with
      | .error _ => (none, evs ++ [.docSet firestoreId (buildDoc r (docPhotosOf r metas))])
      | .ok _ =>
        (some (firestoreId, docPhotosOf r metas),
         evs ++ [.docSet firestoreId (buildDoc r (docPhotosOf r metas))])
    | none =>
      match b.addDocResult r.localId with
      | .error _ => (none, evs ++ [.docCreate (buildDoc r (docPhotosOf r metas))])
      | .ok newId =>
        (some (newId, docPhotosOf r metas),
         evs ++ [.docCreate (buildDoc r (docPhotosOf r metas))])

/-- One iteration of the `for (const localInspection of inspectionsToSync)`
loop: on remote success, `markInspectionSynced` then
`updateSyncedInspectionPhotos`; on a thrown error the item is caught and the
local store is left untouched. -/
def processRecord (b : SyncBehavior) (r : LocalInspectionData) (db : LocalDB) :
    LocalDB × Bool × List RemoteEvent :=
  match attemptRecord b r with
  | (none, evs) => (db, false, evs)
  | (some (firestoreId, docPhotos), evs) =>
    (updatePhotosPure (markSyncedPure db r.localId firestoreId) r.localId docPhotos, true, evs)

/-- Sequential processing of the initial `listPending` snapshot; returns the
final store, the success count and the concatenated remote trace. -/
def syncLoop (b : SyncBehavior) : List LocalInspectionData → LocalDB → LocalDB × Nat × List RemoteEvent
  | [], db => (db, 0, [])
  | r :: rest, db =>
    let (db', ok, evs) := processRecord b r db
    let (db'', succ, evs') := syncLoop b rest db'
    (db'', (if ok then 1 else 0) + succ, evs ++ evs')

/-- One reconciliation pass over the snapshot returned by
`getInspectionsToSync()`: final store, successes, snapshot size, remote trace. -/
def syncPass (b : SyncBehavior) (db : LocalDB) : LocalDB × Nat × Nat × List RemoteEvent :=
  let snapshot := getInspectionsToSyncPure db
  let (db', succ, evs) := syncLoop b snapshot db
  (db', succ, snapshot.length, evs)

/-- The process state seen by `syncOfflineData`: the `isSyncingRef` guard and
the local store. -/
structure AppState where
  isSyncingRef : Bool
  db : LocalDB
deriving DecidableEq, Repr

/-- The observable outcome of one `syncOfflineData` invocation. -/
inductive SyncOutcome where
  /-- "Sync process is already running." — the in-flight guard was set. -/
  | alreadyRunning
  /-- Offline, or no signed-in user. -/
  | notReady
  /-- "No new inspections to sync." -/
  | noItems
  /-- "`succ` of `total` inspections synced." -/
  | finished (succ total : Nat)
deriving DecidableEq, Repr

/-- `syncOfflineData`: the guard check, the online/user check, the pass over the
pending snapshot, and the `finally` release of the guard (also on the
empty-queue early return). -/
def syncOfflineData (b : SyncBehavior) (isOnline userPresent : Bool) (s : AppState) :
    AppState × SyncOutcome × List RemoteEvent :=
  if s.isSyncingRef then
    (s, .alreadyRunning, [])
  else if !isOnline || !userPresent then
    (s, .notReady, [])
  else
    let inspectionsToSync := getInspectionsToSyncPure s.db
    if inspectionsToSync.isEmpty then
      ({ s with isSyncingRef := false }, .noItems, [])
    else
      let (db', succ, evs) := syncLoop b inspectionsToSync s.db
      ({ isSyncingRef := false, db := db' }, .finished succ inspectionsToSync.length, evs)

/-! ### The Submission Coordinator (`src/components/inspection/InspectionForm.tsx`)

`onSubmit` generates a fresh `localId`; when online it uploads the payload
photos and `addDoc`s the document, falling back to `saveToOfflineDB` on any
thrown error; when offline it saves locally at once. `saveToOfflineDB` persists
the record with embedded payloads through `saveInspectionOffline` (which forces
`needsSync := 1`). `checklistAnswers` is an opaque mapping transported
unchanged; it is elided from the embedding. -/

/-- `ClientInspectionPhoto`: `url : string` (defaulted to `''`), optional
`dataUri`. -/
structure ClientPhoto where
  name : String
  url : String
  dataUri : Option String
deriving DecidableEq, Repr

/-- The validated form values used by `onSubmit`. -/
structure FormValues where
  truckIdNo : String
  truckRegNo : String
  generalNotes : Option String
  damageSummary : Option String
deriving DecidableEq, Repr

/-- The signed-in user as seen by the form. -/
structure UserInfo where
  id : String
  name : Option String
  email : Option String
deriving DecidableEq, Repr

/-- Injected outcomes of the remote calls made by `onSubmit`. -/
structure SubmitBehavior where
  /-- `uploadBytes`/`getDownloadURL` for `inspections/<localId>/<photoName>`. -/
  uploadResult : String → Except String String
  /-- `addDoc(collection(firestore, "inspections"), …)`: the new document id. -/
  addDocResult : Except String String

/-- The Firestore `inspections` collection: documents by server-assigned id. -/
abbrev RemoteDocs := List (String × FirestoreDoc)

/-- The result surfaced to the user: confirmed-remote or confirmed-local-pending. -/
inductive SubmitOutcome where
  | savedOnline (docId : String)
  | savedOffline (localId : String)
deriving DecidableEq, Repr

/-- The photo loop of the online path of `onSubmit`: payload photos not already
on Firebase storage are uploaded under `inspections/<localId>/<photoName>`;
photos whose `url` is already a Firebase URL pass through; all others are
dropped. A thrown upload error aborts the whole remote path. -/
def formUploadPhotos (b : SubmitBehavior) (localId : String) :
    List ClientPhoto → Except String (List RemotePhoto)
  | [] => .ok []
  | p :: rest =>
    if isTruthy p.dataUri && !(p.url.startsWith "https://firebasestorage.googleapis.com") then
      let nm := if p.name = "" then "photo_now" else p.name
      match b.uploadResult nm with
      | .error e => .error e
      | .ok url => (formUploadPhotos b localId rest).map (fun metas => ⟨nm, url⟩ :: metas)
    else if p.url.startsWith "https://firebasestorage.googleapis.com" then
      (formUploadPhotos b localId rest).map (fun metas => ⟨p.name, p.url⟩ :: metas)
    else
      formUploadPhotos b localId rest

/-- `inspectionBaseData` lifted into the outbound document shape, with the
uploaded photos attached (`inspectionDataToSaveOnline`). -/
def submitDoc (localId now : String) (user : UserInfo) (data : FormValues)
    (photos : List RemotePhoto) : FirestoreDoc :=
  { localId := localId
    inspectorId := user.id
    inspectorName := jsOr user.name (jsOr user.email "Unknown Inspector")
    truckIdNo := data.truckIdNo.toUpper
    truckRegNo := data.truckRegNo.toUpper
    timestamp := now
    photos := photos
    notes := data.generalNotes
    damageSummary := data.damageSummary
    isReleased := none
    releasedAt := none
    releasedByUserId := none
    releasedByUserName := none }

/-- `saveToOfflineDB`: the record stored locally, photos keeping their embedded
payloads; `saveInspectionOffline` forces `needsSync := 1` (the literal
`needsSync: true` of the call site is overwritten there). -/
def offlineRecord (localIdToUse now : String) (user : UserInfo) (data : FormValues)
    (allClientPhotos : List ClientPhoto) : LocalInspectionData :=
  { localId := localIdToUse
    id := none
    inspectorId := user.id
    inspectorName := jsOr user.name (jsOr user.email "Unknown Inspector")
    truckIdNo := data.truckIdNo.toUpper
    truckRegNo := data.truckRegNo.toUpper
    timestamp := now
    photos := allClientPhotos.map (fun p => ⟨p.name, some p.url, p.dataUri⟩)
    notes := data.generalNotes
    damageSummary := data.damageSummary
    needsSync := 1
    isReleased := none
    releasedAt := none
    releasedByUserId := none
    releasedByUserName := none }

/-- `onSubmit` (browser context): the submission attempt over the remote
collection and the local store. `localId` is the freshly generated
`offline_<time>_<random>` token and `now` the capture timestamp. -/
def onSubmit (b : SubmitBehavior) (isOnline : Bool) (localId now : String) (user : UserInfo)
    (data : FormValues) (allClientPhotos : List ClientPhoto) (remote : RemoteDocs)
    (db : LocalDB) : RemoteDocs × LocalDB × SubmitOutcome :=
  if isOnline then
    match formUploadPhotos b localId allClientPhotos with
    | .error _ =>
      (remote, dbPut db (offlineRecord localId now user data allClientPhotos), .savedOffline localId)
    | .ok metas =>
      match b.addDocResult with
      | .error _ =>
        (remote, dbPut db (offlineRecord localId now user data allClientPhotos), .savedOffline localId)
      | .ok docId =>
        (remote ++ [(docId, submitDoc localId now user data metas)], db, .savedOnline docId)
  else
    (remote, dbPut db (offlineRecord localId now user data allClientPhotos), .savedOffline localId)

/-! ### The Merged View Builder
(`src/app/(app)/dashboard/page.tsx` and `src/app/(app)/inspections/page.tsx`)

Both pages build the identical `combinedMap`: offline records first, keyed by
`localId`; then the fetched Firestore documents, keyed by `item.localId ||
item.id`, each spread with `needsSync: item.needsSync === true ? 1 : 0`. A JS
`Map` keeps insertion order; `set` on an existing key replaces in place. -/

/-- A Firestore document as fetched back by the read pages (timestamps already
converted to ISO strings). `needsSync` is not written by any app path but the
field is tolerated on the wire. -/
structure RemoteInspection where
  id : String
  localId : Option String
  inspectorId : String
  inspectorName : String
  truckIdNo : String
  truckRegNo : String
  timestamp : String
  photos : List RemotePhoto
  notes : Option String
  damageSummary : Option String
  needsSync : Option Bool
  isReleased : Option Bool
  releasedAt : Option String
  releasedByUserId : Option String
  releasedByUserName : Option String
deriving DecidableEq, Repr

/-- A value of the combined map (`InspectionData | LocalInspectionData`). -/
structure MergedEntry where
  localId : Option String
  id : Option String
  inspectorId : String
  inspectorName : String
  truckIdNo : String
  truckRegNo : String
  timestamp : String
  photos : List Photo
  notes : Option String
  damageSummary : Option String
  needsSync : Nat
  isReleased : Option Bool
deriving DecidableEq, Repr

/-- `{ ...item }` for an offline record. -/
def MergedEntry.ofLocal (r : LocalInspectionData) : MergedEntry :=
  { localId := some r.localId, id := r.id, inspectorId := r.inspectorId
    inspectorName := r.inspectorName, truckIdNo := r.truckIdNo, truckRegNo := r.truckRegNo
    timestamp := r.timestamp, photos := r.photos, notes := r.notes
    damageSummary := r.damageSummary, needsSync := r.needsSync, isReleased := r.isReleased }

/-- `{ ...item, needsSync: item.needsSync === true ? 1 : 0 }` for a fetched
Firestore document. -/
def MergedEntry.ofRemote (d : RemoteInspection) : MergedEntry :=
  { localId := d.localId, id := some d.id, inspectorId := d.inspectorId
    inspectorName := d.inspectorName, truckIdNo := d.truckIdNo, truckRegNo := d.truckRegNo
    timestamp := d.timestamp
    photos := d.photos.map (fun p => ⟨p.name, some p.url, none⟩)
    notes := d.notes, damageSummary := d.damageSummary
    needsSync := if d.needsSync == some true then 1 else 0
    isReleased := d.isReleased }

/-- JS `Map.set`: replace in place when the key exists, else append. -/
def mapSet (m : List (String × MergedEntry)) (k : String) (v : MergedEntry) :
    List (String × MergedEntry) :=
  if m.any (fun kv => kv.1 == k) then
    m.map (fun kv => if kv.1 == k then (k, v) else kv)
  else
    m ++ [(k, v)]

/-- The `combinedMap` of `fetchInspections` / `fetchInspectionsAndStats`:
offline entries first under `item.localId`, then online entries under
`item.localId || item.id`, the later `set` replacing the earlier entry. -/
def buildCombinedMap (fetchedOfflineInspections : List LocalInspectionData)
    (fetchedOnlineInspections : List RemoteInspection) : List (String × MergedEntry) :=
  let m0 := fetchedOfflineInspections.foldl
    (fun m item => mapSet m item.localId (MergedEntry.ofLocal item)) []
  fetchedOnlineInspections.foldl
    (fun m item => mapSet m (jsOr item.localId item.id) (MergedEntry.ofRemote item)) m0

/-- `Array.from(combinedMap.values())` sorted by timestamp descending. -/
def combinedInspections (offline : List LocalInspectionData)
    (online : List RemoteInspection) : List MergedEntry :=
  ((buildCombinedMap offline online).map (fun kv => kv.2)).mergeSort
    (fun a b => b.timestamp ≤ a.timestamp)

/-! ### Store lemmas -/

theorem findConsPos (p : LocalInspectionData → Bool) (a : LocalInspectionData)
    (l : List LocalInspectionData) (h : p a = true) : List.find? p (a :: l) = some a := by
  simp [List.find?_cons, h]

theorem findConsNeg (p : LocalInspectionData → Bool) (a : LocalInspectionData)
    (l : List LocalInspectionData) (h : p a = false) : List.find? p (a :: l) = List.find? p l := by
  simp [List.find?_cons, h]

theorem mem_dbPut_cases {db : LocalDB} {z x : LocalInspectionData} (hx : x ∈ dbPut db z) :
    x = z ∨ (x ∈ db ∧ x.localId ≠ z.localId) := by
  unfold dbPut at hx
  by_cases h : db.any (fun w => w.localId == z.localId) = true
  · rw [if_pos h] at hx
    obtain ⟨w, hw, hfw⟩ := List.mem_map.mp hx
    by_cases hwz : (w.localId == z.localId) = true
    · left
      rw [if_pos hwz] at hfw
      exact hfw.symm
    · right
      rw [if_neg hwz] at hfw
      subst hfw
      exact ⟨hw, by simpa [beq_eq_false_iff_ne] using hwz⟩
  · rw [if_neg h] at hx
    rcases List.mem_append.mp hx with hx | hx
    · right
      refine ⟨hx, ?_⟩
      have h' : db.any (fun w => w.localId == z.localId) = false := by
        simpa using h
      have := List.any_eq_false.mp h' x hx
      simpa [beq_eq_false_iff_ne] using this
    · left
      simpa using hx

theorem findMapPut_self (z : LocalInspectionData) :
    ∀ l : List LocalInspectionData, l.any (fun w => w.localId == z.localId) = true →
    (l.map (fun w => if w.localId == z.localId then z else w)).find?
      (fun w => w.localId == z.localId) = some z := by
  intro l
  induction l with
  | nil => simp
  | cons w ws ih =>
    intro hany
    by_cases hw : (w.localId == z.localId) = true
    · rw [List.map_cons, if_pos hw, findConsPos _ _ _ (by simp)]
    · simp only [List.any_cons, hw, Bool.false_or] at hany
      rw [List.map_cons, if_neg hw, findConsNeg _ _ _ (by simpa using hw)]
      exact ih hany

theorem findAppend_self (z : LocalInspectionData) :
    ∀ l : List LocalInspectionData, l.any (fun w => w.localId == z.localId) = false →
    (l ++ [z]).find? (fun w => w.localId == z.localId) = some z := by
  intro l
  induction l with
  | nil =>
    intro _
    rw [List.nil_append]
    exact findConsPos _ _ _ (by simp)
  | cons w ws ih =>
    intro hany
    simp only [List.any_cons, Bool.or_eq_false_iff] at hany
    rw [List.cons_append, findConsNeg _ _ _ hany.1]
    exact ih hany.2

theorem dbGet_dbPut_self (db : LocalDB) (z : LocalInspectionData) :
    dbGet (dbPut db z) z.localId = some z := by
  unfold dbPut dbGet
  by_cases h : db.any (fun w => w.localId == z.localId) = true
  · rw [if_pos h]
    exact findMapPut_self z db h
  · rw [if_neg h]
    exact findAppend_self z db (by simpa using h)

theorem findMapPut_ne (z : LocalInspectionData) (k : String) (hk : k ≠ z.localId) :
    ∀ l : List LocalInspectionData,
    (l.map (fun w => if w.localId == z.localId then z else w)).find? (fun w => w.localId == k)
      = l.find? (fun w => w.localId == k) := by
  intro l
  induction l with
  | nil => simp
  | cons w ws ih =>
    by_cases hw : (w.localId == z.localId) = true
    · have hweq : w.localId = z.localId := by simpa using hw
      rw [List.map_cons, if_pos hw,
          findConsNeg _ _ _ (by simp [beq_eq_false_iff_ne, Ne.symm hk]),
          findConsNeg _ _ _ (by simp [hweq, beq_eq_false_iff_ne, Ne.symm hk])]
      exact ih
    · by_cases hwk : (w.localId == k) = true
      · rw [List.map_cons, if_neg hw, findConsPos _ _ _ hwk, findConsPos _ _ _ hwk]
      · have hwk' : (w.localId == k) = false := by simpa using hwk
        rw [List.map_cons, if_neg hw, findConsNeg _ _ _ hwk', findConsNeg _ _ _ hwk']
        exact ih

theorem findAppend_ne (z : LocalInspectionData) (k : String) (hk : k ≠ z.localId) :
    ∀ l : List LocalInspectionData,
    (l ++ [z]).find? (fun w => w.localId == k) = l.find? (fun w => w.localId == k) := by
  intro l
  induction l with
  | nil =>
    simp only [List.nil_append, List.find?_nil]
    rw [findConsNeg _ _ _ (by simp [beq_eq_false_iff_ne, Ne.symm hk]), List.find?_nil]
  | cons w ws ih =>
    by_cases hwk : (w.localId == k) = true
    · rw [List.cons_append, findConsPos _ _ _ hwk, findConsPos _ _ _ hwk]
    · have hwk' : (w.localId == k) = false := by simpa using hwk
      rw [List.cons_append, findConsNeg _ _ _ hwk', findConsNeg _ _ _ hwk']
      exact ih

theorem dbGet_dbPut_ne {k : String} {z : LocalInspectionData} (db : LocalDB)
    (hk : k ≠ z.localId) : dbGet (dbPut db z) k = dbGet db k := by
  unfold dbPut dbGet
  by_cases h : db.any (fun w => w.localId == z.localId) = true
  · rw [if_pos h]
    exact findMapPut_ne z k hk db
  · rw [if_neg h]
    exact findAppend_ne z k hk db

theorem dbGet_mem {db : LocalDB} {k : String} {r : LocalInspectionData}
    (h : dbGet db k = some r) : r ∈ db ∧ r.localId = k := by
  unfold dbGet at h
  have hmem := List.mem_of_find?_eq_some h
  have hpred := List.find?_some h
  exact ⟨hmem, by simpa using hpred⟩

theorem dbGet_eq_none {db : LocalDB} {k : String} (h : dbGet db k = none) :
    ∀ x ∈ db, x.localId ≠ k := by
  intro x hx
  unfold dbGet at h
  have := List.find?_eq_none.mp h x hx
  simpa using this

theorem dbGet_of_mem_nodup {db : LocalDB} {r : LocalInspectionData}
    (hnd : (db.map (fun w => w.localId)).Nodup) (hr : r ∈ db) :
    dbGet db r.localId = some r := by
  induction db with
  | nil => cases hr
  | cons w ws ih =>
    simp only [List.map_cons, List.nodup_cons] at hnd
    rcases List.mem_cons.mp hr with rfl | hr'
    · unfold dbGet
      rw [findConsPos _ _ _ (by simp)]
    · have hne : w.localId ≠ r.localId := by
        intro he
        exact hnd.1 (he ▸ List.mem_map_of_mem (fun w => w.localId) hr')
      unfold dbGet
      rw [findConsNeg _ _ _ (by simpa [beq_eq_false_iff_ne] using hne)]
      exact ih hnd.2 hr'

/-! ### Sync-engine lemmas -/

theorem keyInj {db : LocalDB} (hnd : (db.map (fun w => w.localId)).Nodup)
    {a b : LocalInspectionData} (ha : a ∈ db) (hb : b ∈ db)
    (hk : a.localId = b.localId) : a = b := by
  induction db with
  | nil => cases ha
  | cons w ws ih =>
    simp only [List.map_cons, List.nodup_cons] at hnd
    rcases List.mem_cons.mp ha with rfl | ha' <;> rcases List.mem_cons.mp hb with rfl | hb'
    · rfl
    · exact absurd (hk ▸ List.mem_map_of_mem (fun w => w.localId) hb') hnd.1
    · exact absurd (hk ▸ List.mem_map_of_mem (fun w => w.localId) ha') hnd.1
    · exact ih hnd.2 ha' hb'

theorem mem_markSyncedPure {db : LocalDB} {k fid : String} {x : LocalInspectionData}
    (hx : x ∈ markSyncedPure db k fid) :
    (x ∈ db ∧ x.localId ≠ k) ∨
      ∃ y, dbGet db k = some y ∧ x = { y with needsSync := 0, id := some fid } := by
  unfold markSyncedPure at hx
  cases h : dbGet db k with
  | none =>
    rw [h] at hx
    exact Or.inl ⟨hx, dbGet_eq_none h x hx⟩
  | some y =>
    rw [h] at hx
    rcases mem_dbPut_cases hx with rfl | ⟨hmem, hne⟩
    · exact Or.inr ⟨y, rfl, rfl⟩
    · exact Or.inl ⟨hmem, by simpa [(dbGet_mem h).2] using hne⟩

theorem mem_updatePhotosPure {db : LocalDB} {k : String} {ps : List RemotePhoto}
    {x : LocalInspectionData} (hx : x ∈ updatePhotosPure db k ps) :
    (x ∈ db ∧ x.localId ≠ k) ∨
      ∃ y, dbGet db k = some y ∧
        x = { y with photos := ps.map (fun p => { name := p.name, url := some p.url, dataUri := none }) } := by
  unfold updatePhotosPure at hx
  cases h : dbGet db k with
  | none =>
    rw [h] at hx
    exact Or.inl ⟨hx, dbGet_eq_none h x hx⟩
  | some y =>
    rw [h] at hx
    rcases mem_dbPut_cases hx with rfl | ⟨hmem, hne⟩
    · exact Or.inr ⟨y, rfl, rfl⟩
    · exact Or.inl ⟨hmem, by simpa [(dbGet_mem h).2] using hne⟩

theorem dbGet_markSyncedPure_ne {db : LocalDB} {k k' fid : String} (hk : k' ≠ k) :
    dbGet (markSyncedPure db k fid) k' = dbGet db k' := by
  unfold markSyncedPure
  cases h : dbGet db k with
  | none => rfl
  | some y => exact dbGet_dbPut_ne db (by simpa [(dbGet_mem h).2] using hk)

theorem dbGet_updatePhotosPure_ne {db : LocalDB} {k k' : String} {ps : List RemotePhoto}
    (hk : k' ≠ k) : dbGet (updatePhotosPure db k ps) k' = dbGet db k' := by
  unfold updatePhotosPure
  cases h : dbGet db k with
  | none => rfl
  | some y => exact dbGet_dbPut_ne db (by simpa [(dbGet_mem h).2] using hk)

theorem dbGet_markSyncedPure_self {db : LocalDB} {k fid : String} {y : LocalInspectionData}
    (h : dbGet db k = some y) :
    dbGet (markSyncedPure db k fid) k = some { y with needsSync := 0, id := some fid } := by
  unfold markSyncedPure
  rw [h]
  have hy : y.localId = k := (dbGet_mem h).2
  have := dbGet_dbPut_self db { y with needsSync := 0, id := some fid }
  simpa [hy] using this

theorem dbGet_updatePhotosPure_self {db : LocalDB} {k : String} {ps : List RemotePhoto}
    {y : LocalInspectionData} (h : dbGet db k = some y) :
    dbGet (updatePhotosPure db k ps) k =
      some { y with photos := ps.map (fun p => { name := p.name, url := some p.url, dataUri := none }) } := by
  unfold updatePhotosPure
  rw [h]
  have hy : y.localId = k := (dbGet_mem h).2
  have := dbGet_dbPut_self db
    { y with photos := ps.map (fun p => { name := p.name, url := some p.url, dataUri := none }) }
  simpa [hy] using this

theorem processRecord_ok (b : SyncBehavior) (r : LocalInspectionData) (db : LocalDB) :
    (processRecord b r db).2.1 = ((attemptRecord b r).1).isSome := by
  unfold processRecord
  rcases h : attemptRecord b r with ⟨res, evs⟩
  cases res with
  | none => simp
  | some v => rcases v with ⟨fid, ps⟩; simp

theorem processRecord_events (b : SyncBehavior) (r : LocalInspectionData) (db : LocalDB) :
    (processRecord b r db).2.2 = (attemptRecord b r).2 := by
  unfold processRecord
  rcases h : attemptRecord b r with ⟨res, evs⟩
  cases res with
  | none => simp
  | some v => rcases v with ⟨fid, ps⟩; simp

theorem processRecord_fail_db {b : SyncBehavior} {r : LocalInspectionData} (db : LocalDB)
    (h : (attemptRecord b r).1 = none) : (processRecord b r db).1 = db := by
  unfold processRecord
  rcases hA : attemptRecord b r with ⟨res, evs⟩
  rw [hA] at h
  simp only at h
  subst h
  simp

theorem processRecord_success_db {b : SyncBehavior} {r : LocalInspectionData} (db : LocalDB)
    {fid : String} {ps : List RemotePhoto} (h : (attemptRecord b r).1 = some (fid, ps)) :
    (processRecord b r db).1 = updatePhotosPure (markSyncedPure db r.localId fid) r.localId ps := by
  unfold processRecord
  rcases hA : attemptRecord b r with ⟨res, evs⟩
  rw [hA] at h
  simp only at h
  subst h
  simp

theorem dbGet_processRecord_ne {b : SyncBehavior} {r : LocalInspectionData} {db : LocalDB}
    {k : String} (hk : k ≠ r.localId) :
    dbGet ((processRecord b r db).1) k = dbGet db k := by
  unfold processRecord
  rcases hA : attemptRecord b r with ⟨res, evs⟩
  cases res with
  | none => simp
  | some v =>
    rcases v with ⟨fid, ps⟩
    simp only
    rw [dbGet_updatePhotosPure_ne hk, dbGet_markSyncedPure_ne hk]

theorem processRecord_pending {b : SyncBehavior} {r : LocalInspectionData} {db : LocalDB}
    {x : LocalInspectionData} (hx : x ∈ (processRecord b r db).1) (hp : x.needsSync = 1) :
    x ∈ db ∧ ((attemptRecord b r).1 = none ∨ x.localId ≠ r.localId) := by
  unfold processRecord at hx
  rcases hA : attemptRecord b r with ⟨res, evs⟩
  rw [hA] at hx
  cases res with
  | none =>
    simp only at hx
    exact ⟨hx, Or.inl (by simp [hA])⟩
  | some v =>
    rcases v with ⟨fid, ps⟩
    simp only at hx
    rcases mem_updatePhotosPure hx with ⟨hmem, hne⟩ | ⟨y2, hy2, rfl⟩
    · rcases mem_markSyncedPure hmem with ⟨hmem', _⟩ | ⟨y, _, rfl⟩
      · exact ⟨hmem', Or.inr hne⟩
      · simp at hp
    · cases hy : dbGet db r.localId with
      | none =>
        rw [show markSyncedPure db r.localId fid = db from by unfold markSyncedPure; rw [hy]] at hy2
        rw [hy] at hy2
        cases hy2
      | some y =>
        rw [dbGet_markSyncedPure_self hy] at hy2
        cases hy2
        simp at hp

theorem syncLoop_cons (b : SyncBehavior) (r : LocalInspectionData)
    (rest : List LocalInspectionData) (db : LocalDB) :
    syncLoop b (r :: rest) db =
      ((syncLoop b rest (processRecord b r db).1).1,
       (if (processRecord b r db).2.1 then 1 else 0) + (syncLoop b rest (processRecord b r db).1).2.1,
       (processRecord b r db).2.2 ++ (syncLoop b rest (processRecord b r db).1).2.2) := by
  rcases h : processRecord b r db with ⟨db', ok, evs⟩
  rcases h2 : syncLoop b rest db' with ⟨db'', succ, evs'⟩
  simp only [syncLoop, h, h2]

theorem syncLoop_succ (b : SyncBehavior) :
    ∀ (rs : List LocalInspectionData) (db : LocalDB),
    (syncLoop b rs db).2.1 = rs.countP (fun r => ((attemptRecord b r).1).isSome) := by
  intro rs
  induction rs with
  | nil => intro db; simp [syncLoop]
  | cons r rest ih =>
    intro db
    rw [syncLoop_cons, List.countP_cons]
    simp only [processRecord_ok, ih]
    by_cases h : ((attemptRecord b r).1).isSome <;> simp [h, Nat.add_comm]

theorem syncLoop_get_ne (b : SyncBehavior) {k : String} :
    ∀ (rs : List LocalInspectionData) (db : LocalDB),
    (∀ r ∈ rs, r.localId ≠ k ∨ (attemptRecord b r).1 = none) →
    dbGet (syncLoop b rs db).1 k = dbGet db k := by
  intro rs
  induction rs with
  | nil => intro db _; simp [syncLoop]
  | cons r rest ih =>
    intro db hall
    rw [syncLoop_cons]
    simp only
    rw [ih (processRecord b r db).1 (fun r' hr' => hall r' (List.mem_cons_of_mem r hr'))]
    rcases hall r (List.mem_cons_self r rest) with hne | hfail
    · exact dbGet_processRecord_ne (Ne.symm hne)
    · rw [processRecord_fail_db db hfail]

theorem syncLoop_clears (b : SyncBehavior) :
    ∀ (rs : List LocalInspectionData),
    (∀ r ∈ rs, ((attemptRecord b r).1).isSome = true) →
    ∀ db : LocalDB,
    (∀ x ∈ db, x.needsSync = 1 → ∃ r ∈ rs, r.localId = x.localId) →
    ∀ x ∈ (syncLoop b rs db).1, x.needsSync ≠ 1 := by
  intro rs
  induction rs with
  | nil =>
    intro _ db hcover x hx hp
    rcases hcover x hx hp with ⟨r, hr, _⟩
    cases hr
  | cons r rest ih =>
    intro hok db hcover x hx
    rw [syncLoop_cons] at hx
    simp only at hx
    refine ih (fun r' hr' => hok r' (List.mem_cons_of_mem r hr')) (processRecord b r db).1 ?_ x hx
    intro y hy hyp
    have hys := processRecord_pending hy hyp
    rcases hys.2 with hfail | hne
    · have := hok r (List.mem_cons_self r rest)
      rw [hfail] at this
      cases this
    · rcases hcover y hys.1 hyp with ⟨r0, hr0, hkey⟩
      rcases List.mem_cons.mp hr0 with rfl | hr0'
      · exact absurd hkey.symm hne
      · exact ⟨r0, hr0', hkey⟩

/-! ### Photo-upload lemmas -/

theorem exceptMapOk {e : Except String (List RemotePhoto)}
    {f : List RemotePhoto → List RemotePhoto} {v : List RemotePhoto}
    (h : e.map f = .ok v) : ∃ w, e = .ok w ∧ v = f w := by
  cases e with
  | error a => simp [Except.map] at h
  | ok w => exact ⟨w, rfl, by simpa [Except.map] using h.symm⟩

theorem uploadPhotos_cons_upload_err {b : SyncBehavior} {spid : String} {p : Photo}
    {rest : List Photo} {e : String} (h1 : needsUpload p = true)
    (h2 : b.uploadResult spid (photoNameOf p) = .error e) :
    uploadPhotos b spid (p :: rest) =
      (.error e, [.uploadBlob (storagePath spid (photoNameOf p))]) := by
  simp only [uploadPhotos, h1, if_pos, h2]

theorem uploadPhotos_cons_upload_ok {b : SyncBehavior} {spid : String} {p : Photo}
    {rest : List Photo} {url : String} (h1 : needsUpload p = true)
    (h2 : b.uploadResult spid (photoNameOf p) = .ok url) :
    uploadPhotos b spid (p :: rest) =
      ((uploadPhotos b spid rest).1.map (fun metas => ⟨photoNameOf p, url⟩ :: metas),
       .uploadBlob (storagePath spid (photoNameOf p)) :: (uploadPhotos b spid rest).2) := by
  rcases h : uploadPhotos b spid rest with ⟨res, evs⟩
  simp only [uploadPhotos, h1, if_pos, h2, h]

theorem uploadPhotos_cons_passthrough {b : SyncBehavior} {spid : String} {p : Photo}
    {rest : List Photo} (h1 : needsUpload p = false) (h2 : isTruthy p.url = true) :
    uploadPhotos b spid (p :: rest) =
      ((uploadPhotos b spid rest).1.map (fun metas => ⟨p.name, p.url.getD ""⟩ :: metas),
       (uploadPhotos b spid rest).2) := by
  rcases h : uploadPhotos b spid rest with ⟨res, evs⟩
  simp only [uploadPhotos, h1, Bool.false_eq_true, if_false, h2, if_pos, h]

theorem uploadPhotos_cons_skip {b : SyncBehavior} {spid : String} {p : Photo}
    {rest : List Photo} (h1 : needsUpload p = false) (h2 : isTruthy p.url = false) :
    uploadPhotos b spid (p :: rest) = uploadPhotos b spid rest := by
  simp only [uploadPhotos, h1, Bool.false_eq_true, if_false, h2]

theorem uploadPhotos_events_uploads (b : SyncBehavior) (spid : String) :
    ∀ ps : List Photo, ∀ e ∈ (uploadPhotos b spid ps).2, ∃ path, e = .uploadBlob path := by
  intro ps
  induction ps with
  | nil => simp [uploadPhotos]
  | cons p rest ih =>
    intro e he
    by_cases h1 : needsUpload p = true
    · cases h2 : b.uploadResult spid (photoNameOf p) with
      | error err =>
        rw [uploadPhotos_cons_upload_err h1 h2] at he
        simp only [List.mem_singleton] at he
        exact ⟨_, he⟩
      | ok url =>
        rw [uploadPhotos_cons_upload_ok h1 h2] at he
        rcases List.mem_cons.mp he with rfl | he'
        · exact ⟨_, rfl⟩
        · exact ih e he'
    · have h1' : needsUpload p = false := by simpa using h1
      by_cases h2 : isTruthy p.url = true
      · rw [uploadPhotos_cons_passthrough h1' h2] at he
        exact ih e he
      · rw [uploadPhotos_cons_skip h1' (by simpa using h2)] at he
        exact ih e he

theorem uploadPhotos_ok_mem {b : SyncBehavior} {spid : String} :
    ∀ {ps : List Photo} {metas : List RemotePhoto},
    (uploadPhotos b spid ps).1 = .ok metas →
    ∀ {p : Photo}, p ∈ ps → needsUpload p = true →
    RemoteEvent.uploadBlob (storagePath spid (photoNameOf p)) ∈ (uploadPhotos b spid ps).2 ∧
      ∃ u, b.uploadResult spid (photoNameOf p) = .ok u ∧ (⟨photoNameOf p, u⟩ : RemotePhoto) ∈ metas := by
  intro ps
  induction ps with
  | nil => intro metas _ p hp; cases hp
  | cons q rest ih =>
    intro metas hok p hp hu
    by_cases h1 : needsUpload q = true
    · cases h2 : b.uploadResult spid (photoNameOf q) with
      | error err =>
        rw [uploadPhotos_cons_upload_err h1 h2] at hok
        cases hok
      | ok url =>
        rw [uploadPhotos_cons_upload_ok h1 h2] at hok ⊢
        simp only at hok
        obtain ⟨metas', hrest, rfl⟩ := exceptMapOk hok
        rcases List.mem_cons.mp hp with rfl | hp'
        · exact ⟨List.mem_cons_self _ _, url, h2, List.mem_cons_self _ _⟩
        · obtain ⟨hev, u, hu2, hm⟩ := ih hrest hp' hu
          exact ⟨List.mem_cons_of_mem _ hev, u, hu2, List.mem_cons_of_mem _ hm⟩
    · have h1' : needsUpload q = false := by simpa using h1
      by_cases h2 : isTruthy q.url = true
      · rw [uploadPhotos_cons_passthrough h1' h2] at hok ⊢
        simp only at hok
        obtain ⟨metas', hrest, rfl⟩ := exceptMapOk hok
        rcases List.mem_cons.mp hp with rfl | hp'
        · rw [hu] at h1'; cases h1'
        · obtain ⟨hev, u, hu2, hm⟩ := ih hrest hp' hu
          exact ⟨hev, u, hu2, List.mem_cons_of_mem _ hm⟩
      · rw [uploadPhotos_cons_skip h1' (by simpa using h2)] at hok ⊢
        rcases List.mem_cons.mp hp with rfl | hp'
        · rw [hu] at h1'; cases h1'
        · exact ih hok hp' hu

theorem attemptRecord_eq_uploadErr {b : SyncBehavior} {r : LocalInspectionData}
    {e : String} {evs : List RemoteEvent}
    (hU : uploadPhotos b (jsOr r.id r.localId) r.photos = (.error e, evs)) :
    attemptRecord b r = (none, evs) := by
  unfold attemptRecord
  rw [hU]

theorem attemptRecord_eq_setErr {b : SyncBehavior} {r : LocalInspectionData}
    {metas : List RemotePhoto} {evs : List RemoteEvent} {fid e : String}
    (hU : uploadPhotos b (jsOr r.id r.localId) r.photos = (.ok metas, evs))
    (hid : jsOrOpt r.id = some fid) (hset : b.setDocResult fid = .error e) :
    attemptRecord b r =
      (none, evs ++ [.docSet fid (buildDoc r (docPhotosOf r metas))]) := by
  unfold attemptRecord
  rw [hU]
  simp only [hid, hset]

theorem attemptRecord_eq_setOk {b : SyncBehavior} {r : LocalInspectionData}
    {metas : List RemotePhoto} {evs : List RemoteEvent} {fid : String}
    (hU : uploadPhotos b (jsOr r.id r.localId) r.photos = (.ok metas, evs))
    (hid : jsOrOpt r.id = some fid) (hset : b.setDocResult fid = .ok ()) :
    attemptRecord b r =
      (some (fid, docPhotosOf r metas),
       evs ++ [.docSet fid (buildDoc r (docPhotosOf r metas))]) := by
  unfold attemptRecord
  rw [hU]
  simp only [hid, hset]

theorem attemptRecord_eq_addErr {b : SyncBehavior} {r : LocalInspectionData}
    {metas : List RemotePhoto} {evs : List RemoteEvent} {e : String}
    (hU : uploadPhotos b (jsOr r.id r.localId) r.photos = (.ok metas, evs))
    (hid : jsOrOpt r.id = none) (hadd : b.addDocResult r.localId = .error e) :
    attemptRecord b r =
      (none, evs ++ [.docCreate (buildDoc r (docPhotosOf r metas))]) := by
  unfold attemptRecord
  rw [hU]
  simp only [hid, hadd]

theorem attemptRecord_eq_addOk {b : SyncBehavior} {r : LocalInspectionData}
    {metas : List RemotePhoto} {evs : List RemoteEvent} {nid : String}
    (hU : uploadPhotos b (jsOr r.id r.localId) r.photos = (.ok metas, evs))
    (hid : jsOrOpt r.id = none) (hadd : b.addDocResult r.localId = .ok nid) :
    attemptRecord b r =
      (some (nid, docPhotosOf r metas),
       evs ++ [.docCreate (buildDoc r (docPhotosOf r metas))]) := by
  unfold attemptRecord
  rw [hU]
  simp only [hid, hadd]

theorem attemptRecord_success_decomp {b : SyncBehavior} {r : LocalInspectionData}
    {fid : String} {docPhotos : List RemotePhoto}
    (h : (attemptRecord b r).1 = some (fid, docPhotos)) :
    ∃ metas w,
      (uploadPhotos b (jsOr r.id r.localId) r.photos).1 = .ok metas ∧
      docPhotos = docPhotosOf r metas ∧
      (attemptRecord b r).2 = (uploadPhotos b (jsOr r.id r.localId) r.photos).2 ++ [w] ∧
      (w = .docSet fid (buildDoc r docPhotos) ∨ w = .docCreate (buildDoc r docPhotos)) := by
  rcases hU : uploadPhotos b (jsOr r.id r.localId) r.photos with ⟨res, evs⟩
  cases res with
  | error e =>
    rw [attemptRecord_eq_uploadErr hU] at h
    cases h
  | ok metas =>
    cases hid : jsOrOpt r.id with
    | some fid' =>
      cases hset : b.setDocResult fid' with
      | error e =>
        rw [attemptRecord_eq_setErr hU hid hset] at h
        cases h
      | ok u =>
        rw [attemptRecord_eq_setOk hU hid hset] at h
        simp only [Option.some.injEq, Prod.mk.injEq] at h
        obtain ⟨rfl, rfl⟩ := h
        rw [attemptRecord_eq_setOk hU hid hset]
        exact ⟨metas, _, rfl, rfl, rfl, Or.inl rfl⟩
    | none =>
      cases hadd : b.addDocResult r.localId with
      | error e =>
        rw [attemptRecord_eq_addErr hU hid hadd] at h
        cases h
      | ok nid =>
        rw [attemptRecord_eq_addOk hU hid hadd] at h
        simp only [Option.some.injEq, Prod.mk.injEq] at h
        obtain ⟨rfl, rfl⟩ := h
        rw [attemptRecord_eq_addOk hU hid hadd]
        exact ⟨metas, _, rfl, rfl, rfl, Or.inr rfl⟩

/-! ### Concrete fixtures shared by witnesses and counterexamples -/

/-- A pending local record with the given key, truck fields and photos. -/
def mkPending (lid truck : String) (ps : List Photo) : LocalInspectionData :=
  { localId := lid, id := none, inspectorId := "u1", inspectorName := "Inspector One"
    truckIdNo := truck, truckRegNo := truck, timestamp := "2024-01-01T00:00:00.000Z"
    photos := ps, notes := none, damageSummary := none, needsSync := 1
    isReleased := none, releasedAt := none, releasedByUserId := none, releasedByUserName := none }

/-- A sync behaviour whose remote calls all succeed. -/
def bAllOk : SyncBehavior :=
  { uploadResult := fun spid nm => .ok ("https://firebasestorage.googleapis.com/" ++ spid ++ "/" ++ nm)
    setDocResult := fun _ => .ok ()
    addDocResult := fun lid => .ok ("fs_" ++ lid) }

/-! ### C10 — `updateInspectionOffline` semantics -/

/-- C10: for `updateInspectionOffline(localId, updates)` on an existing record,
the stored record is the merge-patch in which `needsSync` is forced to `1`
(pending) whenever the `updates` object has no `needsSync` key, is exactly the
supplied value when it has one, and every field absent from `updates` is left
unchanged. -/
theorem updateInspectionOffline_semantics (ctx : Ctx) (db : LocalDB) (localId : String)
    (u : InspectionUpdates) (r : LocalInspectionData)
    (hb : ctx.isBrowser = true) (hr : dbGet db localId = some r) :
    updateInspectionOffline ctx db localId u = .ok (dbPut db (applyUpdates r u)) ∧
    dbGet (dbPut db (applyUpdates r u)) localId = some (applyUpdates r u) ∧
    (applyUpdates r u).localId = r.localId ∧
    (u.needsSync = none → (applyUpdates r u).needsSync = 1) ∧
    (∀ v, u.needsSync = some v → (applyUpdates r u).needsSync = v) ∧
    (u.id = none → (applyUpdates r u).id = r.id) ∧
    (u.inspectorId = none → (applyUpdates r u).inspectorId = r.inspectorId) ∧
    (u.inspectorName = none → (applyUpdates r u).inspectorName = r.inspectorName) ∧
    (u.truckIdNo = none → (applyUpdates r u).truckIdNo = r.truckIdNo) ∧
    (u.truckRegNo = none → (applyUpdates r u).truckRegNo = r.truckRegNo) ∧
    (u.timestamp = none → (applyUpdates r u).timestamp = r.timestamp) ∧
    (u.photos = none → (applyUpdates r u).photos = r.photos) ∧
    (u.notes = none → (applyUpdates r u).notes = r.notes) ∧
    (u.damageSummary = none → (applyUpdates r u).damageSummary = r.damageSummary) ∧
    (u.isReleased = none → (applyUpdates r u).isReleased = r.isReleased) ∧
    (u.releasedAt = none → (applyUpdates r u).releasedAt = r.releasedAt) ∧
    (u.releasedByUserId = none → (applyUpdates r u).releasedByUserId = r.releasedByUserId) ∧
    (u.releasedByUserName = none → (applyUpdates r u).releasedByUserName = r.releasedByUserName) ∧
    (∀ v, u.truckIdNo = some v → (applyUpdates r u).truckIdNo = v) := by
  have hloc : (applyUpdates r u).localId = localId := by
    simp [applyUpdates, (dbGet_mem hr).2]
  refine ⟨?_, ?_, rfl, ?_, ?_, ?_, ?_, ?_, ?_, ?_, ?_, ?_, ?_, ?_, ?_, ?_, ?_, ?_, ?_⟩
  · simp [updateInspectionOffline, getDb, hb, hr, Except.map]
  · have := dbGet_dbPut_self db (applyUpdates r u)
    rwa [hloc] at this
  · intro h; simp [applyUpdates, h]
  · intro v h; simp [applyUpdates, h]
  · intro h; simp [applyUpdates, h]
  · intro h; simp [applyUpdates, h]
  · intro h; simp [applyUpdates, h]
  · intro h; simp [applyUpdates, h]
  · intro h; simp [applyUpdates, h]
  · intro h; simp [applyUpdates, h]
  · intro h; simp [applyUpdates, h]
  · intro h; simp [applyUpdates, h]
  · intro h; simp [applyUpdates, h]
  · intro h; simp [applyUpdates, h]
  · intro h; simp [applyUpdates, h]
  · intro h; simp [applyUpdates, h]
  · intro h; simp [applyUpdates, h]
  · intro v h; simp [applyUpdates, h]

/-- A sample stored record and a sample patch for the C10 witness. -/
def recU : LocalInspectionData := mkPending "LU" "TU" []

/-- A patch without a `needsSync` key: release sub-state only. -/
def updU : InspectionUpdates := { isReleased := some (some true), releasedAt := some (some "2024-02-02T00:00:00.000Z") }

theorem updateInspectionOffline_semantics_witness :
    updateInspectionOffline ⟨true⟩ [recU] "LU" updU = .ok (dbPut [recU] (applyUpdates recU updU)) ∧
    (applyUpdates recU updU).needsSync = 1 ∧
    (applyUpdates recU updU).truckIdNo = recU.truckIdNo := by
  have h := updateInspectionOffline_semantics ⟨true⟩ [recU] "LU" updU recU rfl (by decide)
  exact ⟨h.1, h.2.2.2.1 rfl, h.2.2.2.2.2.2.2.2.1 rfl⟩

/-! ### C8 — Local Record Store fails fast outside a browser context

The embedded `getDb` is the variant carrying the explicit
`typeof window === 'undefined'` rejection ("IndexedDB is not available on the
server."); in the variant without the explicit check the same call rejects
because the `indexedDB` global is absent in a non-browser context. -/

/-- C8: in a non-browser context every Local Record Store operation fails fast
with the distinct store-unavailable error, and that failure is distinguishable
from "record missing", which in a browser is the non-error result `ok none`. -/
theorem localStore_fails_fast (ctx : Ctx) (h : ctx.isBrowser = false) :
    (∀ db prov fresh now r, saveInspectionOffline ctx db prov fresh now r = .error .indexedDBUnavailable) ∧
    (∀ db lid u, updateInspectionOffline ctx db lid u = .error .indexedDBUnavailable) ∧
    (∀ db, getOfflineInspections ctx db = .error .indexedDBUnavailable) ∧
    (∀ db lid, getInspectionByIdOffline ctx db lid = .error .indexedDBUnavailable) ∧
    (∀ db, getInspectionsToSync ctx db = .error .indexedDBUnavailable) ∧
    (∀ db lid fid, markInspectionSynced ctx db lid fid = .error .indexedDBUnavailable) ∧
    (∀ db lid ps, updateSyncedInspectionPhotos ctx db lid ps = .error .indexedDBUnavailable) ∧
    (∀ db lid, deleteInspectionOffline ctx db lid = .error .indexedDBUnavailable) ∧
    (∀ (ctx2 : Ctx) db lid, ctx2.isBrowser = true → dbGet db lid = none →
      getInspectionByIdOffline ctx2 db lid = .ok none ∧
      (Except.ok none : Except StoreError (Option LocalInspectionData)) ≠ .error .indexedDBUnavailable) := by
  refine ⟨?_, ?_, ?_, ?_, ?_, ?_, ?_, ?_, ?_⟩
  · intro db prov fresh now r
    simp [saveInspectionOffline, getDb, h, Except.map]
  · intro db lid u
    simp [updateInspectionOffline, getDb, h, Except.map]
  · intro db
    simp [getOfflineInspections, getDb, h, Except.map]
  · intro db lid
    simp [getInspectionByIdOffline, getDb, h, Except.map]
  · intro db
    simp [getInspectionsToSync, getDb, h, Except.map]
  · intro db lid fid
    simp [markInspectionSynced, getDb, h, Except.map]
  · intro db lid ps
    simp [updateSyncedInspectionPhotos, getDb, h, Except.map]
  · intro db lid
    simp [deleteInspectionOffline, getDb, h, Except.map]
  · intro ctx2 db lid h2 hmiss
    refine ⟨?_, by simp⟩
    simp [getInspectionByIdOffline, getDb, h2, Except.map, hmiss]

theorem localStore_fails_fast_witness :
    getInspectionByIdOffline ⟨false⟩ [recU] "LU" = .error .indexedDBUnavailable ∧
    getInspectionByIdOffline ⟨true⟩ [recU] "missing" = .ok none := by
  have h := localStore_fails_fast ⟨false⟩ rfl
  refine ⟨h.2.2.2.1 [recU] "LU", ?_⟩
  exact (h.2.2.2.2.2.2.2.2 ⟨true⟩ [recU] "missing" rfl (by decide)).1

/-! ### C2 — merge precedence -/

/-- The local pending record of the C2 scenario. -/
def localC2 : LocalInspectionData := mkPending "L1" "TRUCK-A" []

/-- A remote document sharing `localId` `"L1"` but carrying different fields;
no app write path ever stores a `needsSync` field remotely. -/
def remoteC2 : RemoteInspection :=
  { id := "S1", localId := some "L1", inspectorId := "u1", inspectorName := "Inspector One"
    truckIdNo := "TRUCK-B", truckRegNo := "TRUCK-B", timestamp := "2024-01-01T00:00:00.000Z"
    photos := [], notes := none, damageSummary := none, needsSync := none
    isReleased := none, releasedAt := none, releasedByUserId := none, releasedByUserName := none }

/-- C2 counterexample: for a local pending record and a remote record sharing
its `localId` but with different fields, the combined map's single entry shows
the REMOTE record's data with `needsSync = 0` — the local data is not shown and
the pending flag is not preserved, contrary to the claim. -/
theorem merge_pending_flag_lost :
    localC2.needsSync = 1 ∧
    remoteC2.localId = some localC2.localId ∧
    remoteC2.truckIdNo ≠ localC2.truckIdNo ∧
    buildCombinedMap [localC2] [remoteC2] = [("L1", MergedEntry.ofRemote remoteC2)] ∧
    (MergedEntry.ofRemote remoteC2).truckIdNo = "TRUCK-B" ∧
    (MergedEntry.ofRemote remoteC2).needsSync = 0 ∧
    ¬((MergedEntry.ofRemote remoteC2).truckIdNo = localC2.truckIdNo ∧
      (MergedEntry.ofRemote remoteC2).needsSync = 1) := by
  decide

/-- C2 amended: when a local record and a remote record resolve to the same
key, the merged view contains exactly one entry for that key, and that entry is
the remote record's data in full; its `needsSync` flag comes only from the
remote document itself (`item.needsSync === true ? 1 : 0`), so the local
pending flag is not preserved. -/
theorem merge_remote_wins (l : LocalInspectionData) (d : RemoteInspection)
    (hkey : jsOr d.localId d.id = l.localId) :
    buildCombinedMap [l] [d] = [(l.localId, MergedEntry.ofRemote d)] ∧
    (MergedEntry.ofRemote d).needsSync = (if d.needsSync == some true then 1 else 0) := by
  constructor
  · unfold buildCombinedMap
    simp only [List.foldl_cons, List.foldl_nil]
    rw [hkey]
    simp [mapSet]
  · rfl

theorem merge_remote_wins_witness :
    buildCombinedMap [localC2] [remoteC2] = [(localC2.localId, MergedEntry.ofRemote remoteC2)] ∧
    (MergedEntry.ofRemote remoteC2).needsSync = (if remoteC2.needsSync == some true then 1 else 0) :=
  merge_remote_wins localC2 remoteC2 (by decide)

/-! ### C3 — mutual exclusion of reconciliation passes -/

/-- C3: a trigger arriving while `isSyncingRef` is set is a complete no-op that
reports "already running" (no pass starts: state unchanged, no remote events);
and across every invocation the guard observed at return equals the guard
observed at entry — in particular a pass entered with the guard clear always
releases it again (`finally`), whether the records succeeded or failed. -/
theorem sync_mutual_exclusion (b : SyncBehavior) (isOnline userPresent : Bool) (s : AppState) :
    (s.isSyncingRef = true →
      syncOfflineData b isOnline userPresent s = (s, .alreadyRunning, [])) ∧
    (syncOfflineData b isOnline userPresent s).1.isSyncingRef = s.isSyncingRef := by
  constructor
  · intro hs
    simp [syncOfflineData, hs]
  · by_cases hs : s.isSyncingRef = true
    · simp [syncOfflineData, hs]
    · have hs' : s.isSyncingRef = false := by simpa using hs
      simp only [syncOfflineData, hs', Bool.false_eq_true, if_false]
      by_cases hou : (!isOnline || !userPresent) = true
      · simp [hou, hs']
      · simp only [hou, Bool.false_eq_true, if_false]
        by_cases hempty : (getInspectionsToSyncPure s.db).isEmpty = true
        · simp [hempty, hs']
        · rcases hL : syncLoop b (getInspectionsToSyncPure s.db) s.db with ⟨db', succ, evs⟩
          simp [hempty, hL, hs']

theorem sync_mutual_exclusion_witness :
    syncOfflineData bAllOk true true ⟨true, [mkPending "LG" "TG" []]⟩ =
      (⟨true, [mkPending "LG" "TG" []]⟩, .alreadyRunning, []) ∧
    (syncOfflineData bAllOk true true ⟨false, [mkPending "LG" "TG" []]⟩).1.isSyncingRef = false := by
  refine ⟨(sync_mutual_exclusion bAllOk true true ⟨true, [mkPending "LG" "TG" []]⟩).1 rfl, ?_⟩
  exact (sync_mutual_exclusion bAllOk true true ⟨false, [mkPending "LG" "TG" []]⟩).2

/-! ### C4 — partial-batch resilience -/

theorem syncPass_def (b : SyncBehavior) (db : LocalDB) :
    syncPass b db =
      ((syncLoop b (getInspectionsToSyncPure db) db).1,
       (syncLoop b (getInspectionsToSyncPure db) db).2.1,
       (getInspectionsToSyncPure db).length,
       (syncLoop b (getInspectionsToSyncPure db) db).2.2) := by
  rcases h : syncLoop b (getInspectionsToSyncPure db) db with ⟨db', succ, evs⟩
  simp only [syncPass, h]

/-- The behaviour of the three-record scenario: the second record's document
write is rejected, every other remote call succeeds. -/
def bC4 : SyncBehavior :=
  { uploadResult := fun spid nm => .ok ("https://firebasestorage.googleapis.com/" ++ spid ++ "/" ++ nm)
    setDocResult := fun _ => .ok ()
    addDocResult := fun lid => if lid = "B" then .error "permission-denied" else .ok ("fs_" ++ lid) }

/-- Three pending records; the second one ("B") will fail its remote write. -/
def dbC4 : LocalDB := [mkPending "A" "T1" [], mkPending "B" "T2" [], mkPending "C" "T3" []]

/-- C4: in a reconciliation pass, a record whose remote write throws is left in
the store exactly as it was (still pending) while the pass continues — the
reported success count is the number of records whose attempt succeeded; in
particular, for three pending records where only the second fails, the batch
reports 2 of 3 successes, the first and third end marked synced, and the second
remains pending and unchanged. -/
theorem sync_partial_batch (b : SyncBehavior) (db : LocalDB)
    (hnd : (db.map (fun w => w.localId)).Nodup) :
    ((syncPass b db).2.1 =
      (getInspectionsToSyncPure db).countP (fun r => ((attemptRecord b r).1).isSome)) ∧
    (∀ r ∈ getInspectionsToSyncPure db, (attemptRecord b r).1 = none →
      dbGet (syncPass b db).1 r.localId = some r ∧ r.needsSync = 1) ∧
    (syncPass bC4 dbC4).2.1 = 2 ∧
    (syncPass bC4 dbC4).2.2.1 = 3 ∧
    dbGet (syncPass bC4 dbC4).1 "A" =
      some { mkPending "A" "T1" [] with needsSync := 0, id := some "fs_A" } ∧
    dbGet (syncPass bC4 dbC4).1 "B" = some (mkPending "B" "T2" []) ∧
    dbGet (syncPass bC4 dbC4).1 "C" =
      some { mkPending "C" "T3" [] with needsSync := 0, id := some "fs_C" } := by
  refine ⟨?_, ?_, by decide, by decide, by decide, by decide, by decide⟩
  · rw [syncPass_def]
    exact syncLoop_succ b (getInspectionsToSyncPure db) db
  · intro r hr hfail
    have hin : r ∈ db := (List.mem_filter.mp hr).1
    have hpend : r.needsSync = 1 := by
      have := (List.mem_filter.mp hr).2
      simpa using this
    refine ⟨?_, hpend⟩
    rw [syncPass_def]
    simp only
    rw [syncLoop_get_ne b (getInspectionsToSyncPure db) db ?_]
    · exact dbGet_of_mem_nodup hnd hin
    · intro r' hr'
      by_cases hk : r'.localId = r.localId
      · have : r' = r := keyInj hnd (List.mem_filter.mp hr').1 hin hk
        subst this
        exact Or.inr hfail
      · exact Or.inl hk

theorem sync_partial_batch_witness :
    (syncPass bC4 dbC4).2.1 =
      (getInspectionsToSyncPure dbC4).countP (fun r => ((attemptRecord bC4 r).1).isSome) ∧
    dbGet (syncPass bC4 dbC4).1 "B" = some (mkPending "B" "T2" []) := by
  have h := sync_partial_batch bC4 dbC4 (by decide)
  refine ⟨h.1, ?_⟩
  have h2 := h.2.1 (mkPending "B" "T2" []) (by decide) (by decide)
  simpa using h2.1

/-! ### C5 — idempotent reconciliation -/

/-- C5: after a pass in which every pending record's attempt succeeds, the
`needsSync` index query returns the empty sequence, so a second pass (under any
remote behaviour) visits zero records, performs no remote interactions, and
leaves the store untouched. -/
theorem sync_idempotent (b b2 : SyncBehavior) (db : LocalDB)
    (hok : ∀ r ∈ getInspectionsToSyncPure db, ((attemptRecord b r).1).isSome = true) :
    getInspectionsToSyncPure (syncPass b db).1 = [] ∧
    syncPass b2 (syncPass b db).1 = ((syncPass b db).1, 0, 0, []) := by
  have hclear : ∀ x ∈ (syncPass b db).1, x.needsSync ≠ 1 := by
    rw [syncPass_def]
    simp only
    refine syncLoop_clears b (getInspectionsToSyncPure db) hok db ?_
    intro x hx hp
    refine ⟨x, ?_, rfl⟩
    exact List.mem_filter.mpr ⟨hx, by simp [hp]⟩
  have hnil : getInspectionsToSyncPure (syncPass b db).1 = [] := by
    unfold getInspectionsToSyncPure
    rw [List.filter_eq_nil_iff]
    intro x hx
    simpa using hclear x hx
  refine ⟨hnil, ?_⟩
  rw [syncPass_def b2, hnil]
  simp [syncLoop]

/-- One pending record that syncs successfully for the C5 witness. -/
def dbC5 : LocalDB := [mkPending "L5" "T5" []]

theorem sync_idempotent_witness :
    getInspectionsToSyncPure (syncPass bAllOk dbC5).1 = [] ∧
    syncPass bAllOk (syncPass bAllOk dbC5).1 = ((syncPass bAllOk dbC5).1, 0, 0, []) :=
  sync_idempotent bAllOk bAllOk dbC5 (by decide)

/-! ### C6 — photo upload strictly before the document write

The claim covers both paths that write a document: the Reconciliation Engine
(`attemptRecord`/`processRecord` above) and the Submission Coordinator's
online path (`onSubmit` lines 470–492). For the latter, `formUploadPhotosTr`
and `submitAttempt` re-embed the same remote interactions with an event trace;
`formUploadPhotosTr_fst` proves the traced loop computes exactly the
`formUploadPhotos` result that `onSubmit` uses. -/

/-- The form photo loop's upload test:
`clientPhoto.dataUri && !clientPhoto.url.startsWith('https://firebasestorage.googleapis.com')`. -/
def clientNeedsUpload (p : ClientPhoto) : Bool :=
  isTruthy p.dataUri && !(p.url.startsWith "https://firebasestorage.googleapis.com")

/-- `clientPhoto.name || photo_${Date.now()}` in the form's loop; the
`Date.now()` fallback for an empty name is abstracted to a fixed token. -/
def clientPhotoNameOf (p : ClientPhoto) : String :=
  if p.name = "" then "photo_now" else p.name

/-- The photo loop of `onSubmit`'s online path with its remote interactions
recorded; uploads go to `inspections/<localId>/<photoName>` (the source uses
the fresh `localId` for path predictability before the Firestore document
exists). Its result component coincides with `formUploadPhotos`, the untraced
embedding `onSubmit` runs (`formUploadPhotosTr_fst`). -/
def formUploadPhotosTr (b : SubmitBehavior) (localId : String) :
    List ClientPhoto → Except String (List RemotePhoto) × List RemoteEvent
  | [] => (.ok [], [])
  | p :: rest =>
    if clientNeedsUpload p then
      match b.uploadResult (clientPhotoNameOf p) with
      | .error e => (.error e, [.uploadBlob (storagePath localId (clientPhotoNameOf p))])
      | .ok url =>
        let (res, evs) := formUploadPhotosTr b localId rest
        (res.map (fun metas => ⟨clientPhotoNameOf p, url⟩ :: metas),
         .uploadBlob (storagePath localId (clientPhotoNameOf p)) :: evs)
    else if p.url.startsWith "https://firebasestorage.googleapis.com" then
      let (res, evs) := formUploadPhotosTr b localId rest
      (res.map (fun metas => ⟨p.name, p.url⟩ :: metas), evs)
    else
      formUploadPhotosTr b localId rest

/-- The remote half of `onSubmit`'s online path — photo uploads, then the
`addDoc` that writes the document carrying the uploaded URLs — with the remote
interactions recorded. -/
def submitAttempt (b : SubmitBehavior) (localId now : String) (user : UserInfo)
    (data : FormValues) (photos : List ClientPhoto) :
    Option (String × FirestoreDoc) × List RemoteEvent :=
  match formUploadPhotosTr b localId photos with
  | (.error _, evs) => (none, evs)
  | (.ok metas, evs) =>
    match b.addDocResult with
    | .error _ => (none, evs ++ [.docCreate (submitDoc localId now user data metas)])
    | .ok docId =>
      (some (docId, submitDoc localId now user data metas),
       evs ++ [.docCreate (submitDoc localId now user data metas)])

theorem formUploadTr_cons_upload_err {b : SubmitBehavior} {lid : String} {p : ClientPhoto}
    {rest : List ClientPhoto} {e : String} (h1 : clientNeedsUpload p = true)
    (h2 : b.uploadResult (clientPhotoNameOf p) = .error e) :
    formUploadPhotosTr b lid (p :: rest) =
      (.error e, [.uploadBlob (storagePath lid (clientPhotoNameOf p))]) := by
  simp only [formUploadPhotosTr, h1, if_pos, h2]

theorem formUploadTr_cons_upload_ok {b : SubmitBehavior} {lid : String} {p : ClientPhoto}
    {rest : List ClientPhoto} {url : String} (h1 : clientNeedsUpload p = true)
    (h2 : b.uploadResult (clientPhotoNameOf p) = .ok url) :
    formUploadPhotosTr b lid (p :: rest) =
      ((formUploadPhotosTr b lid rest).1.map (fun metas => ⟨clientPhotoNameOf p, url⟩ :: metas),
       .uploadBlob (storagePath lid (clientPhotoNameOf p)) :: (formUploadPhotosTr b lid rest).2) := by
  rcases h : formUploadPhotosTr b lid rest with ⟨res, evs⟩
  simp only [formUploadPhotosTr, h1, if_pos, h2, h]

theorem formUploadTr_cons_passthrough {b : SubmitBehavior} {lid : String} {p : ClientPhoto}
    {rest : List ClientPhoto} (h1 : clientNeedsUpload p = false)
    (h2 : p.url.startsWith "https://firebasestorage.googleapis.com" = true) :
    formUploadPhotosTr b lid (p :: rest) =
      ((formUploadPhotosTr b lid rest).1.map (fun metas => ⟨p.name, p.url⟩ :: metas),
       (formUploadPhotosTr b lid rest).2) := by
  rcases h : formUploadPhotosTr b lid rest with ⟨res, evs⟩
  simp only [formUploadPhotosTr, h1, Bool.false_eq_true, if_false, h2, if_pos, h]

theorem formUploadTr_cons_skip {b : SubmitBehavior} {lid : String} {p : ClientPhoto}
    {rest : List ClientPhoto} (h1 : clientNeedsUpload p = false)
    (h2 : p.url.startsWith "https://firebasestorage.googleapis.com" = false) :
    formUploadPhotosTr b lid (p :: rest) = formUploadPhotosTr b lid rest := by
  simp only [formUploadPhotosTr, h1, Bool.false_eq_true, if_false, h2]

theorem formUpload_cons_upload_err {b : SubmitBehavior} {lid : String} {p : ClientPhoto}
    {rest : List ClientPhoto} {e : String} (h1 : clientNeedsUpload p = true)
    (h2 : b.uploadResult (clientPhotoNameOf p) = .error e) :
    formUploadPhotos b lid (p :: rest) = .error e := by
  have h1' : (isTruthy p.dataUri && !(p.url.startsWith "https://firebasestorage.googleapis.com")) = true := h1
  have h2' : b.uploadResult (if p.name = "" then "photo_now" else p.name) = .error e := h2
  simp only [formUploadPhotos, h1', if_pos, h2']

theorem formUpload_cons_upload_ok {b : SubmitBehavior} {lid : String} {p : ClientPhoto}
    {rest : List ClientPhoto} {url : String} (h1 : clientNeedsUpload p = true)
    (h2 : b.uploadResult (clientPhotoNameOf p) = .ok url) :
    formUploadPhotos b lid (p :: rest) =
      (formUploadPhotos b lid rest).map (fun metas => ⟨clientPhotoNameOf p, url⟩ :: metas) := by
  have h1' : (isTruthy p.dataUri && !(p.url.startsWith "https://firebasestorage.googleapis.com")) = true := h1
  have h2' : b.uploadResult (if p.name = "" then "photo_now" else p.name) = .ok url := h2
  simp only [formUploadPhotos, h1', if_pos, h2']
  rfl

theorem formUpload_cons_passthrough {b : SubmitBehavior} {lid : String} {p : ClientPhoto}
    {rest : List ClientPhoto} (h1 : clientNeedsUpload p = false)
    (h2 : p.url.startsWith "https://firebasestorage.googleapis.com" = true) :
    formUploadPhotos b lid (p :: rest) =
      (formUploadPhotos b lid rest).map (fun metas => ⟨p.name, p.url⟩ :: metas) := by
  have h1' : (isTruthy p.dataUri && !(p.url.startsWith "https://firebasestorage.googleapis.com")) = false := h1
  simp only [formUploadPhotos]
  rw [if_neg (by simp [h1'])]
  rw [if_pos h2]

theorem formUpload_cons_skip {b : SubmitBehavior} {lid : String} {p : ClientPhoto}
    {rest : List ClientPhoto} (h1 : clientNeedsUpload p = false)
    (h2 : p.url.startsWith "https://firebasestorage.googleapis.com" = false) :
    formUploadPhotos b lid (p :: rest) = formUploadPhotos b lid rest := by
  have h1' : (isTruthy p.dataUri && !(p.url.startsWith "https://firebasestorage.googleapis.com")) = false := h1
  simp only [formUploadPhotos]
  rw [if_neg (by simp [h1'])]
  rw [if_neg (by simp [h2])]

theorem formUploadPhotosTr_fst (b : SubmitBehavior) (lid : String) :
    ∀ ps : List ClientPhoto, (formUploadPhotosTr b lid ps).1 = formUploadPhotos b lid ps := by
  intro ps
  induction ps with
  | nil => rfl
  | cons p rest ih =>
    by_cases h1 : clientNeedsUpload p = true
    · cases h2 : b.uploadResult (clientPhotoNameOf p) with
      | error e =>
        rw [formUploadTr_cons_upload_err h1 h2, formUpload_cons_upload_err h1 h2]
      | ok url =>
        rw [formUploadTr_cons_upload_ok h1 h2, formUpload_cons_upload_ok h1 h2, ih]
    · have h1f : clientNeedsUpload p = false := by simpa using h1
      by_cases h2 : p.url.startsWith "https://firebasestorage.googleapis.com" = true
      · rw [formUploadTr_cons_passthrough h1f h2, formUpload_cons_passthrough h1f h2, ih]
      · have h2' : p.url.startsWith "https://firebasestorage.googleapis.com" = false := by
          simpa using h2
        rw [formUploadTr_cons_skip h1f h2', formUpload_cons_skip h1f h2']
        exact ih

theorem formUploadPhotosTr_events (b : SubmitBehavior) (lid : String) :
    ∀ ps : List ClientPhoto, ∀ e ∈ (formUploadPhotosTr b lid ps).2, ∃ path, e = .uploadBlob path := by
  intro ps
  induction ps with
  | nil => simp [formUploadPhotosTr]
  | cons p rest ih =>
    intro e he
    by_cases h1 : clientNeedsUpload p = true
    · cases h2 : b.uploadResult (clientPhotoNameOf p) with
      | error err =>
        rw [formUploadTr_cons_upload_err h1 h2] at he
        simp only [List.mem_singleton] at he
        exact ⟨_, he⟩
      | ok url =>
        rw [formUploadTr_cons_upload_ok h1 h2] at he
        rcases List.mem_cons.mp he with rfl | he'
        · exact ⟨_, rfl⟩
        · exact ih e he'
    · have h1f : clientNeedsUpload p = false := by simpa using h1
      by_cases h2 : p.url.startsWith "https://firebasestorage.googleapis.com" = true
      · rw [formUploadTr_cons_passthrough h1f h2] at he
        exact ih e he
      · rw [formUploadTr_cons_skip h1f (by simpa using h2)] at he
        exact ih e he

theorem formUploadPhotosTr_ok_mem {b : SubmitBehavior} {lid : String} :
    ∀ {ps : List ClientPhoto} {metas : List RemotePhoto},
    (formUploadPhotosTr b lid ps).1 = .ok metas →
    ∀ {p : ClientPhoto}, p ∈ ps → clientNeedsUpload p = true →
    RemoteEvent.uploadBlob (storagePath lid (clientPhotoNameOf p)) ∈ (formUploadPhotosTr b lid ps).2 ∧
      ∃ u, b.uploadResult (clientPhotoNameOf p) = .ok u ∧
        (⟨clientPhotoNameOf p, u⟩ : RemotePhoto) ∈ metas := by
  intro ps
  induction ps with
  | nil => intro metas _ p hp; cases hp
  | cons q rest ih =>
    intro metas hok p hp hu
    by_cases h1 : clientNeedsUpload q = true
    · cases h2 : b.uploadResult (clientPhotoNameOf q) with
      | error err =>
        rw [formUploadTr_cons_upload_err h1 h2] at hok
        cases hok
      | ok url =>
        rw [formUploadTr_cons_upload_ok h1 h2] at hok ⊢
        simp only at hok
        obtain ⟨metas', hrest, rfl⟩ := exceptMapOk hok
        rcases List.mem_cons.mp hp with rfl | hp'
        · exact ⟨List.mem_cons_self _ _, url, h2, List.mem_cons_self _ _⟩
        · obtain ⟨hev, u, hu2, hm⟩ := ih hrest hp' hu
          exact ⟨List.mem_cons_of_mem _ hev, u, hu2, List.mem_cons_of_mem _ hm⟩
    · have h1f : clientNeedsUpload q = false := by simpa using h1
      by_cases h2 : q.url.startsWith "https://firebasestorage.googleapis.com" = true
      · rw [formUploadTr_cons_passthrough h1f h2] at hok ⊢
        simp only at hok
        obtain ⟨metas', hrest, rfl⟩ := exceptMapOk hok
        rcases List.mem_cons.mp hp with rfl | hp'
        · rw [hu] at h1f; cases h1f
        · obtain ⟨hev, u, hu2, hm⟩ := ih hrest hp' hu
          exact ⟨hev, u, hu2, List.mem_cons_of_mem _ hm⟩
      · rw [formUploadTr_cons_skip h1f (by simpa using h2)] at hok ⊢
        rcases List.mem_cons.mp hp with rfl | hp'
        · rw [hu] at h1f; cases h1f
        · exact ih hok hp' hu

theorem submitAttempt_eq_uploadErr {b : SubmitBehavior} {lid now : String} {user : UserInfo}
    {data : FormValues} {photos : List ClientPhoto} {e : String} {evs : List RemoteEvent}
    (hU : formUploadPhotosTr b lid photos = (.error e, evs)) :
    submitAttempt b lid now user data photos = (none, evs) := by
  unfold submitAttempt
  rw [hU]

theorem submitAttempt_eq_addErr {b : SubmitBehavior} {lid now : String} {user : UserInfo}
    {data : FormValues} {photos : List ClientPhoto} {metas : List RemotePhoto}
    {evs : List RemoteEvent} {e : String}
    (hU : formUploadPhotosTr b lid photos = (.ok metas, evs))
    (hadd : b.addDocResult = .error e) :
    submitAttempt b lid now user data photos =
      (none, evs ++ [.docCreate (submitDoc lid now user data metas)]) := by
  unfold submitAttempt
  rw [hU]
  simp only [hadd]

theorem submitAttempt_eq_addOk {b : SubmitBehavior} {lid now : String} {user : UserInfo}
    {data : FormValues} {photos : List ClientPhoto} {metas : List RemotePhoto}
    {evs : List RemoteEvent} {docId : String}
    (hU : formUploadPhotosTr b lid photos = (.ok metas, evs))
    (hadd : b.addDocResult = .ok docId) :
    submitAttempt b lid now user data photos =
      (some (docId, submitDoc lid now user data metas),
       evs ++ [.docCreate (submitDoc lid now user data metas)]) := by
  unfold submitAttempt
  rw [hU]
  simp only [hadd]

theorem submitAttempt_success_decomp {b : SubmitBehavior} {lid now : String} {user : UserInfo}
    {data : FormValues} {photos : List ClientPhoto} {docId : String} {doc : FirestoreDoc}
    (h : (submitAttempt b lid now user data photos).1 = some (docId, doc)) :
    ∃ metas,
      (formUploadPhotosTr b lid photos).1 = .ok metas ∧
      doc = submitDoc lid now user data metas ∧
      (submitAttempt b lid now user data photos).2 =
        (formUploadPhotosTr b lid photos).2 ++ [.docCreate doc] ∧
      b.addDocResult = .ok docId := by
  rcases hU : formUploadPhotosTr b lid photos with ⟨res, evs⟩
  cases res with
  | error e =>
    rw [submitAttempt_eq_uploadErr hU] at h
    cases h
  | ok metas =>
    cases hadd : b.addDocResult with
    | error e =>
      rw [submitAttempt_eq_addErr hU hadd] at h
      cases h
    | ok did =>
      rw [submitAttempt_eq_addOk hU hadd] at h
      simp only [Option.some.injEq, Prod.mk.injEq] at h
      obtain ⟨rfl, rfl⟩ := h
      rw [submitAttempt_eq_addOk hU hadd]
      exact ⟨metas, rfl, rfl, rfl, rfl⟩

/-- C6: within one record's reconciliation OR submission, photo uploads happen
strictly before the document write, and the written document carries URLs, not
payloads. For reconciliation: in one record's successful sync the remote trace
is the photo-upload events followed by the single document write — every
embedded-payload photo not already on remote storage is uploaded, its returned
URL appears in the written document's photos field (which structurally holds
`{name, url}` pairs, never payloads) — and afterwards the local record is
marked synced with its photos rewritten to the written URL form, all payloads
cleared. For submission: in `onSubmit`'s successful online path the remote
trace is likewise the photo-upload events followed by the single `addDoc`, the
written document's photos field is the uploaded metadata (whose result the
untraced `formUploadPhotos` used by `onSubmit` computes identically), and each
embedded-payload photo's uploaded URL appears in it. -/
theorem sync_upload_before_docwrite (b : SyncBehavior) (r y : LocalInspectionData)
    (db : LocalDB) (fid : String) (docPhotos : List RemotePhoto)
    (hA : (attemptRecord b r).1 = some (fid, docPhotos))
    (hy : dbGet db r.localId = some y) :
    (∃ ups w,
      (attemptRecord b r).2 = ups ++ [w] ∧
      (∀ e ∈ ups, ∃ path, e = .uploadBlob path) ∧
      (w = .docSet fid (buildDoc r docPhotos) ∨ w = .docCreate (buildDoc r docPhotos)) ∧
      (buildDoc r docPhotos).photos = docPhotos ∧
      (∀ p ∈ r.photos, needsUpload p = true →
        RemoteEvent.uploadBlob (storagePath (jsOr r.id r.localId) (photoNameOf p)) ∈ ups ∧
        ∃ u, b.uploadResult (jsOr r.id r.localId) (photoNameOf p) = .ok u ∧
          (⟨photoNameOf p, u⟩ : RemotePhoto) ∈ docPhotos)) ∧
    dbGet (processRecord b r db).1 r.localId =
      some { y with needsSync := 0, id := some fid,
                    photos := docPhotos.map (fun m => ⟨m.name, some m.url, none⟩) } ∧
    (∀ p ∈ docPhotos.map (fun m => (⟨m.name, some m.url, none⟩ : Photo)),
      p.dataUri = none ∧ p.url.isSome = true) ∧
    (∀ (sb : SubmitBehavior) (slid snow : String) (su : UserInfo) (sd : FormValues)
       (sphotos : List ClientPhoto) (sdid : String) (sdoc : FirestoreDoc),
      (submitAttempt sb slid snow su sd sphotos).1 = some (sdid, sdoc) →
      ∃ smetas,
        formUploadPhotos sb slid sphotos = .ok smetas ∧
        sdoc = submitDoc slid snow su sd smetas ∧
        sdoc.photos = smetas ∧
        (submitAttempt sb slid snow su sd sphotos).2 =
          (formUploadPhotosTr sb slid sphotos).2 ++ [.docCreate sdoc] ∧
        (∀ e ∈ (formUploadPhotosTr sb slid sphotos).2, ∃ path, e = .uploadBlob path) ∧
        (∀ p ∈ sphotos, clientNeedsUpload p = true →
          RemoteEvent.uploadBlob (storagePath slid (clientPhotoNameOf p)) ∈
            (formUploadPhotosTr sb slid sphotos).2 ∧
          ∃ u, sb.uploadResult (clientPhotoNameOf p) = .ok u ∧
            (⟨clientPhotoNameOf p, u⟩ : RemotePhoto) ∈ smetas)) := by
  obtain ⟨metas, w, hok, hdp, htr, hw⟩ := attemptRecord_success_decomp hA
  refine ⟨⟨(uploadPhotos b (jsOr r.id r.localId) r.photos).2, w, htr,
      uploadPhotos_events_uploads b _ r.photos, hw, rfl, ?_⟩, ?_, ?_, ?_⟩
  · intro p hp hu
    obtain ⟨hev, u, hru, hm⟩ := uploadPhotos_ok_mem hok hp hu
    refine ⟨hev, u, hru, ?_⟩
    have hne : metas ≠ [] := List.ne_nil_of_mem hm
    have hie : metas.isEmpty = false := by
      cases metas with
      | nil => exact absurd rfl hne
      | cons a l => rfl
    rw [hdp]
    simpa [docPhotosOf, hie] using hm
  · rw [processRecord_success_db db hA]
    have hmid := @dbGet_markSyncedPure_self db r.localId fid y hy
    have := @dbGet_updatePhotosPure_self _ r.localId docPhotos _ hmid
    exact this
  · intro p hp
    obtain ⟨m, hm, rfl⟩ := List.mem_map.mp hp
    exact ⟨rfl, rfl⟩
  · intro sb slid snow su sd sphotos sdid sdoc hS
    obtain ⟨smetas, hokTr, hdoc, htr2, hadd⟩ := submitAttempt_success_decomp hS
    subst hdoc
    refine ⟨smetas, ?_, rfl, rfl, htr2, formUploadPhotosTr_events sb slid sphotos, ?_⟩
    · rw [← formUploadPhotosTr_fst]
      exact hokTr
    · intro p hp hu
      exact formUploadPhotosTr_ok_mem hokTr hp hu

/-- The C6 witness record: two embedded-payload photos, never synced. -/
def recC6 : LocalInspectionData :=
  mkPending "L6" "T6"
    [⟨"p1.jpg", some "", some "data:image/jpeg;base64,AA"⟩,
     ⟨"p2.jpg", some "", some "data:image/jpeg;base64,BB"⟩]

/-- The submit-behaviour of the C6 witness's submission half. -/
def bSubC6 : SubmitBehavior :=
  { uploadResult := fun nm => .ok ("https://firebasestorage.googleapis.com/sub/" ++ nm)
    addDocResult := .ok "fs_S6" }

/-- The inspector of the C6 witness's submission half. -/
def userC6 : UserInfo := { id := "u1", name := some "Inspector One", email := none }

/-- The form values of the C6 witness's submission half. -/
def dataC6 : FormValues :=
  { truckIdNo := "t6", truckRegNo := "r6", generalNotes := none, damageSummary := none }

set_option maxRecDepth 8192 in
theorem sync_upload_before_docwrite_witness :
    (dbGet (processRecord bAllOk recC6 [recC6]).1 "L6" =
      some { recC6 with
               needsSync := 0, id := some "fs_L6",
               photos := [⟨"p1.jpg", some "https://firebasestorage.googleapis.com/L6/p1.jpg", none⟩,
                          ⟨"p2.jpg", some "https://firebasestorage.googleapis.com/L6/p2.jpg", none⟩] }) ∧
    (submitAttempt bSubC6 "LS" "2024-01-01T00:00:00.000Z" userC6 dataC6
        [⟨"p.jpg", "", some "data:image/jpeg;base64,AA"⟩]).2 =
      (formUploadPhotosTr bSubC6 "LS" [⟨"p.jpg", "", some "data:image/jpeg;base64,AA"⟩]).2 ++
        [.docCreate (submitDoc "LS" "2024-01-01T00:00:00.000Z" userC6 dataC6
          [⟨"p.jpg", "https://firebasestorage.googleapis.com/sub/p.jpg"⟩])] := by
  have h := sync_upload_before_docwrite bAllOk recC6 recC6 [recC6] "fs_L6"
    [⟨"p1.jpg", "https://firebasestorage.googleapis.com/L6/p1.jpg"⟩,
     ⟨"p2.jpg", "https://firebasestorage.googleapis.com/L6/p2.jpg"⟩]
    (by decide) (by decide)
  refine ⟨by simpa using h.2.1, ?_⟩
  have hU : formUploadPhotosTr bSubC6 "LS" [⟨"p.jpg", "", some "data:image/jpeg;base64,AA"⟩] =
      (.ok [⟨"p.jpg", "https://firebasestorage.googleapis.com/sub/p.jpg"⟩],
       [.uploadBlob "inspections/LS/p.jpg"]) := by rfl
  have hadd : bSubC6.addDocResult = .ok "fs_S6" := rfl
  have hS := @submitAttempt_eq_addOk bSubC6 "LS" "2024-01-01T00:00:00.000Z" userC6 dataC6
    [⟨"p.jpg", "", some "data:image/jpeg;base64,AA"⟩]
    [⟨"p.jpg", "https://firebasestorage.googleapis.com/sub/p.jpg"⟩]
    [.uploadBlob "inspections/LS/p.jpg"] "fs_S6" hU hadd
  obtain ⟨smetas, hm, hdoc, hph, htr2, hev, hmem⟩ :=
    h.2.2.2 bSubC6 "LS" "2024-01-01T00:00:00.000Z" userC6 dataC6
      [⟨"p.jpg", "", some "data:image/jpeg;base64,AA"⟩] "fs_S6"
      (submitDoc "LS" "2024-01-01T00:00:00.000Z" userC6 dataC6
        [⟨"p.jpg", "https://firebasestorage.googleapis.com/sub/p.jpg"⟩])
      (by rw [hS])
  exact htr2

/-! ### C7 — re-run after a failed document write -/

/-- Whether a remote event is a blob upload. -/
def RemoteEvent.isUpload : RemoteEvent → Bool
  | .uploadBlob _ => true
  | _ => false

/-- The number of blob-upload calls in a trace. -/
def countUploads (evs : List RemoteEvent) : Nat :=
  evs.countP RemoteEvent.isUpload

/-- The record of Scenario E: one embedded-payload photo, never synced. -/
def recE : LocalInspectionData :=
  mkPending "L7" "T7" [⟨"p1", some "", some "data:image/png;base64,AAA"⟩]

/-- The Scenario E behaviour: the upload succeeds, the document write throws. -/
def bDocFail : SyncBehavior :=
  { uploadResult := fun spid nm => .ok ("https://firebasestorage.googleapis.com/" ++ spid ++ "/" ++ nm)
    setDocResult := fun _ => .ok ()
    addDocResult := fun _ => .error "unavailable" }

set_option maxRecDepth 8192 in
/-- C7 counterexample: after a pass whose photo upload succeeded and whose
document write failed, the record is unchanged (pending with its original
photos), and a re-run performs the blob upload AGAIN — its trace contains one
upload call, not zero, so the second pass's blob-upload step is not skipped. -/
theorem sync_reupload_counterexample :
    (syncPass bDocFail [recE]).1 = [recE] ∧
    countUploads (syncPass bDocFail [recE]).2.2.2 = 1 ∧
    countUploads (syncPass bAllOk (syncPass bDocFail [recE]).1).2.2.2 = 1 ∧
    ¬(countUploads (syncPass bAllOk (syncPass bDocFail [recE]).1).2.2.2 = 0) := by
  decide

set_option maxRecDepth 8192 in
/-- C7 amended: when a pending record's photo upload succeeds but its document
write fails, the record remains pending and unchanged; a re-run of
reconciliation re-executes the blob upload for that photo rather than skipping
it, but to the identical storage path `inspections/<recordIdentity>/<photoName>`
(so the retried upload overwrites the same remote object instead of creating a
duplicate), and the re-run then retries and completes the document write. -/
theorem sync_reupload_same_path :
    (syncPass bDocFail [recE]).1 = [recE] ∧
    (syncPass bDocFail [recE]).2.2.2.filter RemoteEvent.isUpload =
      [.uploadBlob "inspections/L7/p1"] ∧
    (syncPass bAllOk (syncPass bDocFail [recE]).1).2.2.2.filter RemoteEvent.isUpload =
      [.uploadBlob "inspections/L7/p1"] ∧
    dbGet (syncPass bAllOk (syncPass bDocFail [recE]).1).1 "L7" =
      some { recE with
               needsSync := 0, id := some "fs_L7",
               photos := [⟨"p1", some "https://firebasestorage.googleapis.com/L7/p1", none⟩] } := by
  decide

/-! ### C9 — the synced-implies-no-payload invariant -/

/-- A photo entry still carrying an embedded payload that has not been
uploaded (no Firebase storage URL yet) — the sync engine's own upload test. -/
def unuploadedPayload (p : Photo) : Bool :=
  isTruthy p.dataUri && !isFirebaseUrl p.url

/-- The invariant of the claim: every record marked synced (`needsSync = 0`)
has no photo entry with an unuploaded embedded payload. -/
def storeInvB (db : LocalDB) : Bool :=
  db.all (fun r => !(r.needsSync == 0) || r.photos.all (fun p => !unuploadedPayload p))

/-- A pending record with an unuploaded payload photo. -/
def recC9 : LocalInspectionData :=
  mkPending "L9" "T9" [⟨"p", some "", some "data:image/png;base64,Q"⟩]

set_option maxRecDepth 8192 in
/-- C9 counterexample: two of the operations the claim lists do not preserve
the invariant when they complete. `markInspectionSynced` flips `needsSync` to
synced without touching the photos; and the partial-update path
`updateInspectionOffline`, invoked with a `needsSync: 0` update (as the release
workflow does after a successful online write), likewise marks the record
synced while leaving its payload photos in place. In both cases the store ends
with a synced record still carrying an unuploaded embedded payload. -/
theorem markSynced_invariant_counterexample :
    storeInvB [recC9] = true ∧
    markInspectionSynced ⟨true⟩ [recC9] "L9" "F9" =
      .ok [{ recC9 with needsSync := 0, id := some "F9" }] ∧
    storeInvB [{ recC9 with needsSync := 0, id := some "F9" }] = false ∧
    updateInspectionOffline ⟨true⟩ [recC9] "L9" { needsSync := some 0 } =
      .ok [{ recC9 with needsSync := 0 }] ∧
    storeInvB [{ recC9 with needsSync := 0 }] = false := by
  refine ⟨by decide, by rfl, by decide, by rfl, by decide⟩

/-- C9 amended: the invariant is an invariant of the complete flows —
`saveInspectionOffline` (which stores the record pending) preserves it,
`updateSyncedInspectionPhotos` (which clears every payload) preserves it, a
whole per-record reconciliation step (`markInspectionSynced` immediately
followed by `updateSyncedInspectionPhotos` on success, nothing on failure)
preserves it, and the partial-update path `updateInspectionOffline` preserves
it whenever its updates leave the record pending (no `needsSync` key, or a
pending value) or whenever the updated record's photos carry no unuploaded
payload — but neither `markInspectionSynced` alone nor an
`updateInspectionOffline` that sets `needsSync` to synced over payload photos
preserves it: each can leave a synced record with an unuploaded payload until
the photo rewrite runs. -/
theorem store_invariant_amended :
    (∀ (db : LocalDB) (prov : Option String) (fresh now : String) (r : LocalInspectionData)
       (db' : LocalDB) (lid : String),
       saveInspectionOffline ⟨true⟩ db prov fresh now r = .ok (db', lid) →
       storeInvB db = true → storeInvB db' = true) ∧
    (∀ (db : LocalDB) (lid : String) (ps : List RemotePhoto) (db' : LocalDB),
       updateSyncedInspectionPhotos ⟨true⟩ db lid ps = .ok db' →
       storeInvB db = true → storeInvB db' = true) ∧
    (∀ (b : SyncBehavior) (r : LocalInspectionData) (db : LocalDB),
       storeInvB db = true → storeInvB (processRecord b r db).1 = true) ∧
    (∀ (db : LocalDB) (lid : String) (u : InspectionUpdates) (db' : LocalDB),
       updateInspectionOffline ⟨true⟩ db lid u = .ok db' →
       (∀ v, u.needsSync = some v → v ≠ 0) →
       storeInvB db = true → storeInvB db' = true) ∧
    (∀ (db : LocalDB) (lid : String) (u : InspectionUpdates) (db' : LocalDB)
       (r : LocalInspectionData),
       updateInspectionOffline ⟨true⟩ db lid u = .ok db' →
       dbGet db lid = some r →
       (∀ p ∈ u.photos.getD r.photos, unuploadedPayload p = false) →
       storeInvB db = true → storeInvB db' = true) := by
  have hinv : ∀ db : LocalDB, storeInvB db = true ↔
      (∀ x ∈ db, x.needsSync = 0 → ∀ p ∈ x.photos, unuploadedPayload p = false) := by
    intro db
    constructor
    · intro h x hx hns p hp
      have hx' := List.all_eq_true.mp h x hx
      rcases Bool.or_eq_true_iff.mp hx' with h1 | h2
      · simp [hns] at h1
      · simpa using List.all_eq_true.mp h2 p hp
    · intro h
      refine List.all_eq_true.mpr ?_
      intro x hx
      by_cases hns : x.needsSync = 0
      · refine Bool.or_eq_true_iff.mpr (Or.inr ?_)
        refine List.all_eq_true.mpr ?_
        intro p hp
        simpa using h x hx hns p hp
      · refine Bool.or_eq_true_iff.mpr (Or.inl ?_)
        simpa using hns
  have hUpd : ∀ (db : LocalDB) (lid : String) (ps : List RemotePhoto),
      (∀ x ∈ db, x.localId ≠ lid → x.needsSync = 0 → ∀ p ∈ x.photos, unuploadedPayload p = false) →
      ∀ x ∈ updatePhotosPure db lid ps, x.needsSync = 0 →
        ∀ p ∈ x.photos, unuploadedPayload p = false := by
    intro db lid ps h x hx hns p hp
    rcases mem_updatePhotosPure hx with ⟨hmem, hne⟩ | ⟨y, hy, rfl⟩
    · exact h x hmem hne hns p hp
    · simp only at hp
      obtain ⟨m, _, rfl⟩ := List.mem_map.mp hp
      simp [unuploadedPayload, isTruthy]
  have hPatch : ∀ (db : LocalDB) (lid : String) (u : InspectionUpdates),
      updateInspectionOffline ⟨true⟩ db lid u =
        .ok (match dbGet db lid with
             | some inspection => dbPut db (applyUpdates inspection u)
             | none => db) := by
    intro db lid u
    simp [updateInspectionOffline, getDb, Except.map]
  refine ⟨?_, ?_, ?_, ?_, ?_⟩
  · intro db prov fresh now r db' lid hsave hdb
    have hcomp : saveInspectionOffline ⟨true⟩ db prov fresh now r =
        .ok (dbPut db { r with
                          localId := jsOr prov fresh, needsSync := 1,
                          timestamp := if r.timestamp = "" then now else r.timestamp },
             jsOr prov fresh) := by
      simp [saveInspectionOffline, getDb, Except.map]
    rw [hcomp] at hsave
    injection hsave with hpair
    injection hpair with h1 h2
    subst h1
    rw [hinv] at hdb ⊢
    intro x hx hns p hp
    rcases mem_dbPut_cases hx with rfl | ⟨hmem, _⟩
    · simp at hns
    · exact hdb x hmem hns p hp
  · intro db lid ps db' hupd hdb
    have hcomp : updateSyncedInspectionPhotos ⟨true⟩ db lid ps =
        .ok (updatePhotosPure db lid ps) := by
      simp [updateSyncedInspectionPhotos, getDb, Except.map]
    rw [hcomp] at hupd
    injection hupd with h1
    subst h1
    rw [hinv] at hdb ⊢
    exact hUpd db lid ps (fun x hx _ => hdb x hx)
  · intro b r db hdb
    rcases hA : (attemptRecord b r).1 with _ | ⟨fid, ps⟩
    · rw [processRecord_fail_db db hA]
      exact hdb
    · rw [processRecord_success_db db hA]
      rw [hinv] at hdb ⊢
      refine hUpd _ r.localId ps ?_
      intro x hx hxk hns p hp
      rcases mem_markSyncedPure hx with ⟨hmem, _⟩ | ⟨y, hy, rfl⟩
      · exact hdb x hmem hns p hp
      · exact absurd (by simpa using (dbGet_mem hy).2) hxk
  · intro db lid u db' hupd hv hdb
    rw [hPatch db lid u] at hupd
    injection hupd with h1
    subst h1
    cases hr : dbGet db lid with
    | none => exact hdb
    | some r =>
      rw [hinv] at hdb ⊢
      intro x hx hns p hp
      rcases mem_dbPut_cases hx with rfl | ⟨hmem, _⟩
      · cases hu : u.needsSync with
        | none => simp [applyUpdates, hu] at hns
        | some v =>
          have : (applyUpdates r u).needsSync = v := by simp [applyUpdates, hu]
          exact absurd (this ▸ hns) (hv v hu)
      · exact hdb x hmem hns p hp
  · intro db lid u db' r hupd hr hclean hdb
    rw [hPatch db lid u] at hupd
    injection hupd with h1
    subst h1
    rw [hr]
    rw [hinv] at hdb ⊢
    intro x hx hns p hp
    rcases mem_dbPut_cases hx with rfl | ⟨hmem, _⟩
    · refine hclean p ?_
      simpa [applyUpdates] using hp
    · exact hdb x hmem hns p hp

/-- The release-style patch of the C9 witness: no `needsSync` key. -/
def updRel : InspectionUpdates := { isReleased := some (some true) }

theorem store_invariant_amended_witness :
    storeInvB (processRecord bAllOk recC9 [recC9]).1 = true ∧
    storeInvB (dbPut [recC9] (applyUpdates recC9 updRel)) = true := by
  refine ⟨store_invariant_amended.2.2.1 bAllOk recC9 [recC9] (by decide), ?_⟩
  exact store_invariant_amended.2.2.2.1 [recC9] "L9" updRel
    (dbPut [recC9] (applyUpdates recC9 updRel)) (by rfl)
    (by intro v hv; cases hv) (by decide)

/-! ### C1 — no data loss on submit -/

theorem self_mem_dbPut (db : LocalDB) (z : LocalInspectionData) : z ∈ dbPut db z :=
  (dbGet_mem (dbGet_dbPut_self db z)).1

/-- A remote document joined to this submission exists (`localId` match). -/
def remoteHasSubmission (remote : RemoteDocs) (lid : String) : Bool :=
  remote.any (fun kd => kd.2.localId == lid)

/-- A local record for this submission exists with `needsSync` pending. -/
def localHasPending (db : LocalDB) (lid : String) : Bool :=
  db.any (fun r => r.localId == lid && r.needsSync == 1)

/-- C1: for every submission attempt — any connectivity state, any injected
photo-upload or document-write failure — exactly one terminal outcome holds:
either a remote document with the submitted fields exists (and no local pending
record was added), or a local record with the submitted fields and `needsSync`
pending exists (and the remote collection is untouched). The remote path, on
any failure — including failure after some photos were already uploaded —
falls back to the local save, so the submission is never dropped. -/
theorem submit_no_data_loss (b : SubmitBehavior) (isOnline : Bool) (localId now : String)
    (user : UserInfo) (data : FormValues) (photos : List ClientPhoto)
    (remote : RemoteDocs) (db : LocalDB)
    (h1 : remoteHasSubmission remote localId = false)
    (h2 : ∀ x ∈ db, x.localId ≠ localId) :
    ((remoteHasSubmission (onSubmit b isOnline localId now user data photos remote db).1 localId = true ∧
      localHasPending (onSubmit b isOnline localId now user data photos remote db).2.1 localId = false) ∨
     (remoteHasSubmission (onSubmit b isOnline localId now user data photos remote db).1 localId = false ∧
      localHasPending (onSubmit b isOnline localId now user data photos remote db).2.1 localId = true)) ∧
    (∀ docId, (onSubmit b isOnline localId now user data photos remote db).2.2 = .savedOnline docId →
      ∃ metas, formUploadPhotos b localId photos = .ok metas ∧
        (onSubmit b isOnline localId now user data photos remote db).1 =
          remote ++ [(docId, submitDoc localId now user data metas)] ∧
        (onSubmit b isOnline localId now user data photos remote db).2.1 = db) ∧
    ((onSubmit b isOnline localId now user data photos remote db).2.2 = .savedOffline localId →
      (onSubmit b isOnline localId now user data photos remote db).1 = remote ∧
      (onSubmit b isOnline localId now user data photos remote db).2.1 =
        dbPut db (offlineRecord localId now user data photos) ∧
      (offlineRecord localId now user data photos).needsSync = 1 ∧
      (offlineRecord localId now user data photos).localId = localId) ∧
    ((∃ docId, (onSubmit b isOnline localId now user data photos remote db).2.2 = .savedOnline docId) ∨
      (onSubmit b isOnline localId now user data photos remote db).2.2 = .savedOffline localId) := by
  have hnop : localHasPending db localId = false := by
    refine List.any_eq_false.mpr ?_
    intro x hx
    simp [beq_eq_false_iff_ne, h2 x hx]
  have hpend : localHasPending (dbPut db (offlineRecord localId now user data photos)) localId = true := by
    refine List.any_eq_true.mpr ?_
    refine ⟨offlineRecord localId now user data photos, self_mem_dbPut db _, ?_⟩
    simp [offlineRecord]
  by_cases hOn : isOnline = true
  · cases hF : formUploadPhotos b localId photos with
    | error e =>
      have hres : onSubmit b isOnline localId now user data photos remote db =
          (remote, dbPut db (offlineRecord localId now user data photos), .savedOffline localId) := by
        simp only [onSubmit, hOn, if_pos, hF]
      rw [hres]
      refine ⟨Or.inr ⟨h1, hpend⟩, ?_, ?_, Or.inr rfl⟩
      · intro docId heq
        cases heq
      · intro _
        exact ⟨rfl, rfl, rfl, rfl⟩
    | ok metas =>
      cases hA : b.addDocResult with
      | error e =>
        have hres : onSubmit b isOnline localId now user data photos remote db =
            (remote, dbPut db (offlineRecord localId now user data photos), .savedOffline localId) := by
          simp only [onSubmit, hOn, if_pos, hF, hA]
        rw [hres]
        refine ⟨Or.inr ⟨h1, hpend⟩, ?_, ?_, Or.inr rfl⟩
        · intro docId heq
          cases heq
        · intro _
          exact ⟨rfl, rfl, rfl, rfl⟩
      | ok docId =>
        have hres : onSubmit b isOnline localId now user data photos remote db =
            (remote ++ [(docId, submitDoc localId now user data metas)], db, .savedOnline docId) := by
          simp only [onSubmit, hOn, if_pos, hF, hA]
        rw [hres]
        have hrem : remoteHasSubmission
            (remote ++ [(docId, submitDoc localId now user data metas)]) localId = true := by
          refine List.any_eq_true.mpr ?_
          refine ⟨(docId, submitDoc localId now user data metas), List.mem_append_right _ (List.mem_singleton_self _), ?_⟩
          simp [submitDoc]
        refine ⟨Or.inl ⟨hrem, hnop⟩, ?_, ?_, Or.inl ⟨docId, rfl⟩⟩
        · intro docId' heq
          cases heq
          exact ⟨metas, rfl, rfl, rfl⟩
        · intro hyp
          cases hyp
  · have hOn' : isOnline = false := by simpa using hOn
    have hres : onSubmit b isOnline localId now user data photos remote db =
        (remote, dbPut db (offlineRecord localId now user data photos), .savedOffline localId) := by
      simp only [onSubmit, hOn', Bool.false_eq_true, if_false]
    rw [hres]
    refine ⟨Or.inr ⟨h1, hpend⟩, ?_, ?_, Or.inr rfl⟩
    · intro docId heq
      cases heq
    · intro _
      exact ⟨rfl, rfl, rfl, rfl⟩

/-- The submit-behaviour and form input of the C1 witness: online, uploads and
document create both succeed. -/
def bSubmitOk : SubmitBehavior :=
  { uploadResult := fun nm => .ok ("https://firebasestorage.googleapis.com/sub/" ++ nm)
    addDocResult := .ok "fs_S1" }

/-- The inspector of the C1 witness. -/
def userW : UserInfo := { id := "u1", name := some "Inspector One", email := none }

/-- The form values of the C1 witness. -/
def dataW : FormValues := { truckIdNo := "t1", truckRegNo := "r1", generalNotes := none, damageSummary := none }

set_option maxRecDepth 8192 in
theorem submit_no_data_loss_witness :
    (remoteHasSubmission (onSubmit bSubmitOk true "LS" "2024-01-01T00:00:00.000Z" userW dataW
        [⟨"p.jpg", "", some "data:image/jpeg;base64,AA"⟩] [] []).1 "LS" = true ∧
     localHasPending (onSubmit bSubmitOk true "LS" "2024-01-01T00:00:00.000Z" userW dataW
        [⟨"p.jpg", "", some "data:image/jpeg;base64,AA"⟩] [] []).2.1 "LS" = false) ∨
    (remoteHasSubmission (onSubmit bSubmitOk true "LS" "2024-01-01T00:00:00.000Z" userW dataW
        [⟨"p.jpg", "", some "data:image/jpeg;base64,AA"⟩] [] []).1 "LS" = false ∧
     localHasPending (onSubmit bSubmitOk true "LS" "2024-01-01T00:00:00.000Z" userW dataW
        [⟨"p.jpg", "", some "data:image/jpeg;base64,AA"⟩] [] []).2.1 "LS" = true) :=
  (submit_no_data_loss bSubmitOk true "LS" "2024-01-01T00:00:00.000Z" userW dataW
    [⟨"p.jpg", "", some "data:image/jpeg;base64,AA"⟩] [] [] rfl
    (by intro x hx; cases hx)).1
